import Mathlib

/-!
Verification of the zerocloud cluster-configuration planner
(`src/zerocloud/configparser.py`), the name service
(`src/zerocloud/proxyquery.py`, class `NameService`), and the fstab part
of the manifest builder (`ClusterConfigParser.prepare_zerovm_files`).

The embedding is shallow: Python dictionaries become association lists,
mutation becomes explicit state passing, and exceptions become
`Except PErr`.  The data model classes (`ZvmNode`, `ZvmChannel`,
`parse_location`, `DEVICE_MAP`, access bitmasks) live in the repository's
`common.py`, which is not part of the sources given here; those are
modelled from the specification (sections 3 and 4.1) and are marked as
such.  Regular expressions built by the parser are only handed to the
external `list_account` / `list_container` callbacks, so callback calls
are modelled as oracle functions receiving the source pattern strings.
-/

namespace Zerocloud

/-! ## String helpers -/

/-- Number of `*` characters in a string. -/
def countStars (s : String) : Nat := s.toList.count '*'

/-- Whether a string contains a `*` (Python `'*' in s`). -/
def hasStar (s : String) : Bool := s.toList.contains '*'

/-- Whether `pre` is a leading segment of `l`. -/
def leadEq : List Char → List Char → Bool
  | [], _ => true
  | _ :: _, [] => false
  | a :: as, b :: bs => a = b && leadEq as bs

/-- Python `sub in s`: `sub` occurs as a contiguous substring of `s`.
The empty string is a substring of everything, as in Python. -/
def containsGo (needle : List Char) : List Char → Bool
  | [] => leadEq needle []
  | c :: cs => leadEq needle (c :: cs) || containsGo needle cs

/-- Python `sub in s` at the string level. -/
def strContains (s sub : String) : Bool := containsGo sub.toList s.toList

/-- Replace the leftmost `*` of a character list by `rep` (helper for
`starReplaceFirst`). -/
def starReplaceFirstGo (rep : List Char) : List Char → List Char
  | [] => []
  | c :: cs => if c = '*' then rep ++ cs else c :: starReplaceFirstGo rep cs

/-- Python `s.replace('*', rep, 1)`: replace the leftmost `*` only (the
source only ever calls one-shot replace with the pattern `'*'`). -/
def starReplaceFirst (s rep : String) : String :=
  ⟨starReplaceFirstGo rep.toList s.toList⟩

/-- Replace every `*` of a character list by `rep` (replacements are not
rescanned, as in Python `str.replace`). -/
def starReplaceAllGo (rep : List Char) : List Char → List Char
  | [] => []
  | c :: cs =>
    if c = '*' then rep ++ starReplaceAllGo rep cs
    else c :: starReplaceAllGo rep cs

/-- Python `s.replace('*', rep)`: replace every `*` (the source only ever
calls replace-all with the pattern `'*'`). -/
def starReplaceAll (s rep : String) : String :=
  ⟨starReplaceAllGo rep.toList s.toList⟩

/-- Python truthiness for an optional string: `None` and `''` are falsy. -/
def optFalsy (o : Option String) : Bool :=
  match o with
  | none => true
  | some s => s = ""

/-- Python `'%s' % v` for an optional string (`None` prints as `"None"`). -/
def optRepr (o : Option String) : String :=
  match o with
  | none => "None"
  | some s => s

/-- Modelled from the spec: `has_control_chars` of the missing `common.py`.
Section 3 says control characters are rejected at construction; we treat
the ASCII control range as control characters. -/
def hasCtl (s : String) : Bool :=
  s.toList.any (fun c => c.toNat < 32 || c.toNat = 127)

/-- `_create_node_name` of `configparser.py`: `'%s-%d' % (node_name, i)`. -/
def mkName (n : String) (i : Nat) : String := n ++ "-" ++ toString i

/-! ## Association-list dictionaries (Python `dict`) -/

/-- Lookup in an insertion-ordered association list (`d.get(k)`). -/
def aget {β : Type} (l : List (String × β)) (k : String) : Option β :=
  (l.find? (fun p => p.1 == k)).map (·.2)

/-- Update-or-append (`d[k] = v`); an existing key keeps its slot. -/
def aset {β : Type} (l : List (String × β)) (k : String) (v : β) :
    List (String × β) :=
  if (l.find? (fun p => p.1 == k)).isSome then
    l.map (fun p => if p.1 == k then (p.1, v) else p)
  else l ++ [(k, v)]

/-- Apply `f` to the value stored at key `k` (mutation of a dict member). -/
def aupd {β : Type} (l : List (String × β)) (k : String) (f : β → β) :
    List (String × β) :=
  l.map (fun p => if p.1 == k then (p.1, f p.2) else p)

/-! ## Locations (modelled from the spec, section 3 "Location") -/

/-- Modelled from the spec: the Location model of the missing `common.py`.
A tagged value that is a storage object (`swift://account/container/obj`),
an in-job node endpoint (`zvm://host/device`), or a raw opaque URL. -/
inductive Location where
  | swift (account container obj : String)
  | zvm (host device : String)
  | raw (url : String)
deriving DecidableEq, Repr

/-- URL string of a location (`path.url`). -/
def Location.url : Location → String
  | .swift a c o => "swift://" ++ a ++ "/" ++ c ++ "/" ++ o
  | .zvm h d => "zvm://" ++ h ++ "/" ++ d
  | .raw u => u

/-- Object path of a location (`path.path`, i.e. `/container/obj` for a
storage object). -/
def Location.pathStr : Location → String
  | .swift _ c o => "/" ++ c ++ "/" ++ o
  | .zvm _ d => d
  | .raw u => u

/-- Split a character list on `/`. -/
def splitSlash : List Char → List (List Char)
  | [] => [[]]
  | c :: cs =>
    if c = '/' then [] :: splitSlash cs
    else
      match splitSlash cs with
      | [] => [[c]]
      | h :: t => (c :: h) :: t

/-- Rejoin character lists with `/`. -/
def joinSlash : List (List Char) → List Char
  | [] => []
  | [x] => x
  | x :: xs => x ++ '/' :: joinSlash xs

/-- Modelled from the spec: `parse_location` of the missing `common.py`.
Parses a URL string into a `Location`; empty or absent input gives none. -/
def parseLocation (s : Option String) : Option Location :=
  match s with
  | none => none
  | some s =>
    if s = "" then none
    else if leadEq "swift://".toList s.toList then
      match splitSlash (s.toList.drop 8) with
      | [] => none
      | [a] => some (.swift ⟨a⟩ "" "")
      | a :: c :: os => some (.swift ⟨a⟩ ⟨c⟩ ⟨joinSlash os⟩)
    else if leadEq "zvm://".toList s.toList then
      match splitSlash (s.toList.drop 6) with
      | [] => none
      | [h] => some (.zvm ⟨h⟩ "")
      | h :: ds => some (.zvm ⟨h⟩ ⟨joinSlash ds⟩)
    else some (.raw s)

/-- `is_zvm_path` of the missing `common.py` (modelled from the spec). -/
def isZvmLoc : Option Location → Bool
  | some (.zvm _ _) => true
  | _ => false

/-- `is_swift_path` of the missing `common.py` (modelled from the spec). -/
def isSwiftLoc : Option Location → Bool
  | some (.swift _ _ _) => true
  | _ => false

/-! ## Access bitmask and device map (modelled from the spec, section 4.1) -/

/-- Modelled from the spec: access bit READ. -/
def ACCESS_READABLE : Nat := 1
/-- Modelled from the spec: access bit WRITE. -/
def ACCESS_WRITABLE : Nat := 2
/-- Modelled from the spec: access bit RANDOM. -/
def ACCESS_RANDOM : Nat := 4
/-- Modelled from the spec: access bit NETWORK. -/
def ACCESS_NETWORK : Nat := 8
/-- Modelled from the spec: access bit APPEND/CDR. -/
def ACCESS_CDR : Nat := 16

/-- Access value of a channel.  Python uses the int `-1` for an unknown
device; we model `-1` as `none` (all bits set, compare two's complement). -/
def accLand (a : Option Nat) (m : Nat) : Nat :=
  match a with
  | none => m
  | some v => v &&& m

/-- Modelled from the spec: `DEVICE_MAP` of the missing `common.py`,
listing the known logical devices of section 3 with the access bitsets of
section 4.1 (read / append / write / random / network). -/
def DEVICE_MAP : List (String × Nat) :=
  [("stdin", ACCESS_READABLE),
   ("stdout", ACCESS_WRITABLE),
   ("stderr", ACCESS_WRITABLE),
   ("input", ACCESS_RANDOM + ACCESS_READABLE),
   ("output", ACCESS_RANDOM + ACCESS_WRITABLE),
   ("debug", ACCESS_NETWORK),
   ("image", ACCESS_CDR)]

/-! ## Channels and nodes (modelled from the spec, section 3) -/

/-- Modelled from the spec: `ZvmChannel` of the missing `common.py`.
Access `none` models the Python value `-1` (unknown device). -/
structure ZvmChannel where
  device : String
  access : Option Nat
  path : Option Location := none
  content_type : Option String := none
  meta : List (String × String) := []
  mode : Option String := none
  removable : String := "no"
deriving DecidableEq, Repr

/-- Modelled from the spec: `ZvmNode` of the missing `common.py`.
Worker state of section 3: dense id, name, channels, captured wildcards,
bind/connect peer lists, locality hint and replica multiplier. -/
structure ZvmNode where
  id : Nat
  name : String
  exe : Location
  args : Option String := none
  env : Option String := none
  replicate : Int := 1
  channels : List ZvmChannel := []
  bind : List (String × String) := []
  connect : List (String × String) := []
  wildcards : List String := []
  path_info : Option String := none
deriving DecidableEq, Repr

/-- Modelled from the spec: `ZvmNode.copy(id, name)` (deep copy with fresh
id and name). -/
def ZvmNode.copy (n : ZvmNode) (id : Nat) (name : String) : ZvmNode :=
  { n with id := id, name := name }

/-- Modelled from the spec: `ZvmNode.add_channel(channel, path,
content_type)` appends a copy of the channel, overriding path and content
type when given. -/
def ZvmNode.addChan (n : ZvmNode) (c : ZvmChannel) (path : Option Location)
    (ct : Option String) : ZvmNode :=
  { n with channels := n.channels ++
      [{ c with path := path <|> c.path, content_type := ct <|> c.content_type }] }

/-- Modelled from the spec: the user-image channel appended by
`node.add_new_channel('image', ACCESS_CDR, removable='yes')`. -/
def imageChan : ZvmChannel :=
  { device := "image", access := some ACCESS_CDR, content_type := some "text/html",
    removable := "yes" }

/-! ## Job description (deserialized JSON cluster map) -/

/-- The `exec` stanza of a node descriptor. -/
structure ExecConfig where
  path : Option String := none
  args : Option String := none
  env : Option String := none
deriving DecidableEq, Repr

/-- One `file_list` entry of a node descriptor. -/
structure FileConfig where
  device : Option String := none
  path : Option String := none
  mode : Option String := none
  meta : List (String × String) := []
  content_type : Option String := none
deriving DecidableEq, Repr

/-- One node descriptor of the cluster config.  An absent `file_list` or
`connect` is the empty list (both are falsy in the source). -/
structure NodeConfig where
  name : Option String := none
  exec : Option ExecConfig := none
  count : Option Int := none
  file_list : List FileConfig := []
  connect : List String := []
  replicate : Option Int := none
deriving DecidableEq, Repr

/-! ## Errors and parser state -/

/-- Planner failures: `config` is `ClusterConfigParsingError(msg)`;
`python` is a raw Python exception escaping the planner (for code paths
outside the `try` of `parse`, e.g. `IndexError` in `resolve_path_info`). -/
inductive PErr where
  | config (msg : String)
  | python (msg : String)
deriving DecidableEq, Repr

/-- Constructor-level parser configuration: `sysimage_devices` keys,
`default_content_type` and the `parser_config['limits']` values (already
rendered with `str()` as the source does). -/
structure ParserCfg where
  sysimage_devices : List String
  default_content_type : Option String := none
  reads : String := "1024"
  rbytes : String := "1048576"
  writes : String := "1024"
  wbytes : String := "1048576"
deriving DecidableEq, Repr

/-- `is_sysimage_device`. -/
def isSysimage (cfg : ParserCfg) (device : String) : Bool :=
  cfg.sysimage_devices.contains device

/-- The three planner fields reset at the start of `parse`
(lines 167-169): `nodes`, `node_id`, `node_list`.  `node_list` holds the
names of the nodes (the Python list holds the node objects themselves,
aliased with the `nodes` dict; keeping names makes the aliasing explicit:
every read goes through `nodes`). -/
structure Core where
  nodes : List (String × ZvmNode) := []
  node_id : Nat := 1
  node_list : List String := []
deriving DecidableEq, Repr

/-- Full mutable planner state (`Core` plus `total_count`). -/
structure ParserState where
  nodes : List (String × ZvmNode) := []
  node_id : Nat := 1
  node_list : List String := []
  total_count : Int := 0
deriving DecidableEq, Repr

/-- Oracles for the external storage callbacks and for the regex capture
extraction of `ZvmNode.store_wildcards` (missing `common.py`).
`listAccount account pat` and `listContainer account container pat` model
`list_account` / `list_container`; `none` models a raised exception, and
the mask regexes of the source are abstracted to their source pattern
strings.  `captures pattern concrete` models the capture groups obtained
by matching `concrete` against `pattern` with every `*` turned into
`(.*)`. -/
structure Callbacks where
  listAccount : String → String → Option (List String)
  listContainer : String → String → Option String → Option (List String)
  captures : String → String → List String

/-! ## Node and channel construction (`_create_node`, `_create_channel`) -/

/-- `_create_node(node_config)` of `configparser.py` (lines 596-615). -/
def createNode (nc : NodeConfig) : Except PErr ZvmNode :=
  if optFalsy nc.name then .error (.config "Must specify node name")
  else
    let name := nc.name.getD ""
    if hasCtl name then .error (.config "Invalid node name")
    else
      match nc.exec with
      | none => .error (.config ("Must specify exec stanza for " ++ name))
      | some ex =>
        match parseLocation ex.path with
        | none => .error (.config ("Must specify executable path for " ++ name))
        | some exe =>
          if isZvmLoc (some exe) then
            .error (.config ("Executable path cannot be a zvm path in " ++ name))
          else if hasCtl (exe.url ++ " " ++ optRepr ex.args ++ " " ++ optRepr ex.env) then
            .error (.config ("Invalid nexe property for " ++ name))
          else
            .ok { id := 0, name := name, exe := exe, args := ex.args, env := ex.env,
                  replicate := nc.replicate.getD 1 }

/-- `_create_channel(channel, node, default_content_type)` of
`configparser.py` (lines 618-636). -/
def createChannel (cfg : ParserCfg) (nodeName : String) (f : FileConfig) :
    Except PErr ZvmChannel :=
  if hasCtl ((f.device).getD "") then
    .error (.config ("Bad device name: " ++ optRepr f.device ++ " in " ++ nodeName))
  else
    let path := parseLocation f.path
    if optFalsy f.device then
      .error (.config ("Must specify device for file in " ++ nodeName))
    else
      let device := (f.device).getD ""
      let access : Option Nat := aget DEVICE_MAP device
      let content_type : Option String :=
        f.content_type <|>
          (if path.isSome then cfg.default_content_type else some "text/html")
      if accLand access ACCESS_READABLE ≠ 0 ∧ path.isSome then
        match path with
        | some (.swift a c _) =>
          if a = "" ∨ c = "" then
            .error (.config ("Invalid path " ++ ((path.map Location.url).getD "")
              ++ " in " ++ nodeName))
          else
            .ok { device := device, access := access, path := path,
                  content_type := content_type, meta := f.meta, mode := f.mode }
        | _ => .error (.config "Readable device must be a swift object")
      else
        .ok { device := device, access := access, path := path,
              content_type := content_type, meta := f.meta, mode := f.mode }

/-! ## Folds over `Except` -/

/-- Left fold that stops on the first error (Python loop raising). -/
def foldE {σ α : Type} (f : σ → α → Except PErr σ) : σ → List α → Except PErr σ
  | s, [] => .ok s
  | s, a :: l =>
    match f s a with
    | .ok s1 => foldE f s1 l
    | .error e => .error e

/-! ## Worker creation (`_get_new_node`, `_add_new_channel`) -/

/-- `_get_new_node(zvm_node, index)` (lines 116-126): reuse the worker
named `name` (`index = 0`) or `name-index`, else create it with the next
dense id. -/
def getNewNode (st : Core) (zn : ZvmNode) (index : Nat) : Core × String :=
  let new_name := if index = 0 then zn.name else mkName zn.name index
  match aget st.nodes new_name with
  | some _ => (st, new_name)
  | none =>
    let nodes1 := st.nodes ++ [(new_name, zn.copy st.node_id new_name)]
    ({ st with nodes := nodes1, node_id := st.node_id + 1 }, new_name)

/-- `_add_new_channel(node, channel, index, path, content_type)`
(lines 295-299). -/
def addNewChannel (st : Core) (zn : ZvmNode) (c : ZvmChannel) (index : Nat)
    (path : Option Location) (ct : Option String) : Core × String :=
  let r := getNewNode st zn index
  ({ r.1 with nodes := aupd r.1.nodes r.2 (fun n => n.addChan c path ct) }, r.2)

/-- Fan-out indices of the repeated pattern `if node_count > 1: for i in
range(1, node_count + 1): ... index=i ... else: ... index=0`. -/
def fanIndices (node_count : Nat) : List Nat :=
  if node_count > 1 then (List.range node_count).map (· + 1) else [0]

/-! ## Wildcard helpers -/

/-- `_resolve_wildcards(node, param)` (lines 576-582). -/
def resolveWildcards (n : ZvmNode) (param : String) : Except PErr String :=
  if countStars param > 0 then
    let r := n.wildcards.foldl (fun u wc => starReplaceFirst u wc) param
    if countStars r > 0 then
      .error (.config ("Cannot resolve wildcard for node " ++ n.name))
    else .ok r
  else .ok param

/-- `_extract_stored_wildcards(path, node)` (lines 585-593), with the node
argument reduced to its `wildcards` field (the only field read).  The
error message renders the path with its URL. -/
def extractStoredWildcards (url : String) (wcs : List String) :
    Except PErr String :=
  let new_url := wcs.foldl (fun u wc => starReplaceFirst u wc) url
  if countStars new_url > 0 then
    .error (.config ("Wildcards in input cannot be resolved into output path "
      ++ url))
  else .ok new_url

/-! ## Inter-node device discovery (`_add_connected_device`) -/

/-- Discovered inter-node channels: `connect_devices[node][peer] =
('/dev/' + local_device, remote_device)`. -/
abbrev CDs := List (String × List (String × (String × String)))

/-- `_add_connected_device(devices, channel, zvm_node)` (lines 565-569). -/
def addConnectedDevice (cds : CDs) (c : ZvmChannel) (zn : ZvmNode) : CDs :=
  match c.path with
  | some (.zvm host dev) =>
    let cur := (aget cds zn.name).getD []
    aset cds zn.name (aset cur host ("/dev/" ++ c.device, dev))
  | _ => cds

/-! ## Channel classification (parse step A, lines 184-205) -/

/-- The four partition lists built per input node. -/
structure Partitioned where
  cds : CDs
  read_list : List ZvmChannel := []
  write_list : List ZvmChannel := []
  other_list : List ZvmChannel := []
deriving DecidableEq, Repr

/-- One iteration of the classification loop (lines 185-205): zvm paths go
to `connect_devices`; unknown devices must be sysimage devices; reads are
prepended to `read_list` (`insert(0, ...)`), append channels appended to
it, writes and others appended to their lists. -/
def classifyStep (cfg : ParserCfg) (zn : ZvmNode) (acc : Partitioned)
    (f : FileConfig) : Except PErr Partitioned :=
  match createChannel cfg zn.name f with
  | .error e => .error e
  | .ok c =>
    if isZvmLoc c.path then
      .ok { acc with cds := addConnectedDevice acc.cds c zn }
    else if c.access = none then
      if isSysimage cfg c.device then
        .ok { acc with other_list := acc.other_list ++ [c] }
      else
        .error (.config ("Unknown device " ++ c.device ++ " in " ++ zn.name))
    else if accLand c.access ACCESS_READABLE ≠ 0 then
      .ok { acc with read_list := c :: acc.read_list }
    else if accLand c.access ACCESS_CDR ≠ 0 then
      .ok { acc with read_list := acc.read_list ++ [c] }
    else if accLand c.access ACCESS_WRITABLE ≠ 0 then
      .ok { acc with write_list := acc.write_list ++ [c] }
    else
      .ok { acc with other_list := acc.other_list ++ [c] }

/-! ## Wildcard object enumeration (`find_objects`, lines 63-114) -/

/-- `find_objects(path)`: enumerate the storage objects matching a
wildcard path through the external callbacks.  The regex masks of the
source are abstracted to the pattern strings they are compiled from,
passed verbatim to the oracle callbacks. -/
def findObjects (cb : Callbacks) (p : Location) : Except PErr (List Location) :=
  match p with
  | .swift account container obj =>
    if hasStar container then
      match cb.listAccount account container with
      | none =>
        .error (.config ("Error querying object server for account: " ++ account))
      | some containers =>
        let maskOpt : Option String := if obj = "" then none else some obj
        match foldE (fun acc c =>
            match cb.listContainer account c maskOpt with
            | none => .error (.config
                ("Error querying object server for container: " ++ c))
            | some objs =>
              .ok (acc ++ objs.map (fun o => Location.swift account c o)))
            [] containers with
        | .error e => .error e
        | .ok tl =>
          if tl.isEmpty then
            .error (.config ("No objects found in path " ++ p.url))
          else .ok tl
    else
      match cb.listContainer account container (some obj) with
      | none =>
        .error (.config ("Error querying object server for container: "
          ++ container))
      | some objs =>
        let tl := objs.map (fun o => Location.swift account container o)
        if tl.isEmpty then
          .error (.config ("No objects found in path " ++ p.url))
        else .ok tl
  | _ => .error (.config "Config parser internal error")

/-! ## Read / write / other channel phases (parse step B, lines 207-267) -/

/-- Fold state of the read-channel loop: core state, current
`node_count`, and the `read_group` flag. -/
structure RW where
  st : Core
  node_count : Nat
  read_group : Bool
deriving Repr

/-- One iteration of the read loop (lines 208-224).  A read channel with a
wildcard path enumerates the matching objects, makes `node_count` workers
`name-1 ... name-N` and stores the captured substrings; otherwise the
channel fans out over `node_count`.  A read channel without a path makes
the Python code dereference `None` (`'*' in chan.path.path`), caught by
the blanket handler as the internal-error message. -/
def readStep (cb : Callbacks) (zn : ZvmNode) (rw : RW) (c : ZvmChannel) :
    Except PErr RW :=
  match c.path with
  | none => .error (.config "Config parser internal error")
  | some p =>
    if hasStar p.pathStr then
      match findObjects cb p with
      | .error e => .error e
      | .ok objs =>
        let st1 := objs.enum.foldl (fun s io =>
          let r := addNewChannel s zn c (io.1 + 1) (some io.2) none
          let nodes2 := aupd r.1.nodes r.2
            (fun n => { n with wildcards := cb.captures p.pathStr io.2.pathStr })
          { r.1 with nodes := nodes2 })
          rw.st
        .ok { st := st1, node_count := objs.length, read_group := true }
    else
      let st1 := (fanIndices rw.node_count).foldl
        (fun s i => (addNewChannel s zn c i none none).1) rw.st
      .ok { rw with st := st1 }

/-- One iteration of the write loop (lines 226-256). -/
def writeStep (zn : ZvmNode) (node_count : Nat) (read_group : Bool)
    (st : Core) (c : ZvmChannel) : Except PErr Core :=
  match c.path with
  | some p =>
    if hasStar p.url then
      if read_group then
        foldE (fun s i =>
          match aget s.nodes (mkName zn.name i) with
          | none => .error (.config "Config parser internal error")
          | some nd =>
            match extractStoredWildcards p.url nd.wildcards with
            | .error e => .error e
            | .ok new_url =>
              let nodes2 := aupd s.nodes (mkName zn.name i)
                (fun n => n.addChan c (parseLocation (some new_url)) none)
              .ok { s with nodes := nodes2 })
          st ((List.range node_count).map (· + 1))
      else
        .ok (((List.range node_count).map (· + 1)).foldl (fun s i =>
          let nn := mkName zn.name i
          let new_url := starReplaceAll p.url nn
          let r := addNewChannel s zn c i (parseLocation (some new_url)) none
          let nodes2 := aupd r.1.nodes nn
            (fun n => { n with wildcards := List.replicate (countStars p.url) nn })
          { r.1 with nodes := nodes2 })
          st)
    else
      if node_count > 1 then
        .error (.config ("Single path " ++ p.url ++ " for multiple node "
          ++ "definition: " ++ zn.name ++ ", please use wildcard"))
      else .ok (addNewChannel st zn c 0 none none).1
  | none =>
    if !(strContains c.device "stdout") && !(strContains c.device "stderr") then
      .error (.config ("Immediate response is not available for device "
        ++ c.device))
    else
      .ok ((fanIndices node_count).foldl
        (fun s i => (addNewChannel s zn c i none none).1) st)

/-- One iteration of the other-channel loop (lines 257-267): sysimage
devices get their access forced to `RANDOM | READABLE`; any other channel
here must carry a path. -/
def otherStep (cfg : ParserCfg) (zn : ZvmNode) (node_count : Nat)
    (st : Core) (c : ZvmChannel) : Except PErr Core :=
  let c1 := if isSysimage cfg c.device then
      { c with access := some (ACCESS_RANDOM + ACCESS_READABLE) } else c
  if !(isSysimage cfg c.device) && c1.path = none then
    .error (.config ("Path is required for device: " ++ c1.device))
  else
    .ok ((fanIndices node_count).foldl
      (fun s i => (addNewChannel s zn c1 i none none).1) st)

/-- Per-input-node channel processing (lines 172-267): create the node
prototype, validate `count`, classify the file list, then run the read,
write and other phases. -/
def processNode (cfg : ParserCfg) (cb : Callbacks) (acc : Core × CDs)
    (nc : NodeConfig) : Except PErr (Core × CDs) :=
  match createNode nc with
  | .error e => .error e
  | .ok zn =>
    let cnt : Int := nc.count.getD 1
    if cnt > 0 then
      if nc.file_list.isEmpty then .ok acc
      else
        match foldE (classifyStep cfg zn) { cds := acc.2 } nc.file_list with
        | .error e => .error e
        | .ok part =>
          match foldE (readStep cb zn)
              { st := acc.1, node_count := cnt.toNat, read_group := false }
              part.read_list with
          | .error e => .error e
          | .ok rw =>
            match foldE (writeStep zn rw.node_count rw.read_group) rw.st
                part.write_list with
            | .error e => .error e
            | .ok st2 =>
              match foldE (otherStep cfg zn rw.node_count) st2 part.other_list with
              | .error e => .error e
              | .ok st3 => .ok (st3, part.cds)
    else .error (.config ("Invalid node count: " ++ toString cnt))

/-! ## Connection wiring (parse step C, lines 128-155 and 274-331) -/

/-- Indices `1, 2, ...` of the contiguous replica group `base-1, base-2,
...` present in the nodes dict.  Wiring never adds or removes dict keys,
so the group is computed up front; the fuel bounds the walk by the number
of keys. -/
def groupIdxGo (nodes : List (String × ZvmNode)) (base : String) :
    Nat → Nat → List Nat
  | _, 0 => []
  | j, fuel + 1 =>
    if (aget nodes (mkName base j)).isSome then
      j :: groupIdxGo nodes base (j + 1) fuel
    else []

/-- All indices of the replica group of `base`. -/
def groupIdx (nodes : List (String × ZvmNode)) (base : String) : List Nat :=
  groupIdxGo nodes base 1 (nodes.length + 1)

/-- One step of the replicated-group loop of `_add_connection`
(lines 316-326): wire the connecting node to the group member
`bind_name-i`, skipping the member when it is the connecting node itself;
a resolved source device is cached in the accumulator's second
component. -/
def addGroupConnection (nodeName bind_name : String) (node : ZvmNode)
    (dst_device : String) (a : Core × Option String) (i : Nat) :
    Except PErr (Core × Option String) :=
  let key := mkName bind_name i
  match aget a.1.nodes key with
  | none => .ok a
  | some bnode =>
    if key == nodeName then .ok a
    else
      let st1 := { a.1 with nodes := aupd a.1.nodes key (fun n =>
        { n with bind := n.bind ++ [(node.name, dst_device)] }) }
      if optFalsy a.2 then
        .ok ({ st1 with nodes := aupd st1.nodes nodeName (fun n =>
          { n with connect := n.connect ++
              [(key, "/dev/out/" ++ key)] }) }, a.2)
      else
        match resolveWildcards bnode (a.2.getD "") with
        | .error e => .error e
        | .ok srcr =>
          .ok ({ st1 with nodes := aupd st1.nodes nodeName (fun n =>
            { n with connect := n.connect ++ [(key, srcr)] }) },
            some srcr)

/-- Body of `_add_connection` after the destination device is resolved
(lines 311-331): the exact-name case appends the symmetric bind/connect
pair or rejects a self-bind, the group case folds `addGroupConnection`
over the replica group. -/
def addConnectionResolved (st : Core) (nodeName bind_name : String)
    (src : Option String) (node : ZvmNode) (dst_device : String) :
    Except PErr Core :=
  match aget st.nodes bind_name with
  | some bind_node =>
    if bind_name == nodeName then
      .error (.config ("Cannot bind to itself: " ++ bind_name))
    else
      let nodes1 := aupd st.nodes bind_name
        (fun n => { n with bind := n.bind ++ [(node.name, dst_device)] })
      let st1 := { st with nodes := nodes1 }
      if optFalsy src then
        .ok { st1 with nodes := aupd st1.nodes nodeName (fun n =>
          { n with connect := n.connect ++
              [(bind_name, "/dev/out/" ++ bind_name)] }) }
      else
        match resolveWildcards bind_node (src.getD "") with
        | .error e => .error e
        | .ok srcr =>
          .ok { st1 with nodes := aupd st1.nodes nodeName (fun n =>
            { n with connect := n.connect ++ [(bind_name, srcr)] }) }
  | none =>
    if (aget st.nodes (mkName bind_name 1)).isSome then
      match foldE (addGroupConnection nodeName bind_name node dst_device)
          (st, src) (groupIdx st.nodes bind_name) with
      | .error e => .error e
      | .ok a => .ok a.1
    else
      .error (.config ("Non-existing node in connect " ++ bind_name))

/-- `_add_connection(node, bind_name, src_device, dst_device)`
(lines 301-331).  The connecting node is denoted by its dict key; the
`bind_node is node` identity tests become key comparisons, sound because
the dict binds each name to the unique node carrying that name. -/
def addConnection (st : Core) (nodeName bind_name : String)
    (src dst : Option String) : Except PErr Core :=
  match aget st.nodes nodeName with
  | none => .error (.python "AttributeError: connecting node missing")
  | some node =>
    match (if optFalsy dst then .ok ("/dev/in/" ++ node.name)
           else resolveWildcards node (dst.getD "")) with
    | .error e => .error e
    | .ok dst_device =>
      addConnectionResolved st nodeName bind_name src node dst_device

/-- `_add_all_connections(node_name, connections, source_devices)`
(lines 128-155). -/
def addAllConnections (st : Core) (node_name : String) (conns : List String)
    (srcs : Option (List (String × (String × String)))) : Except PErr Core :=
  let devsFor := fun (bn : String) =>
    match srcs with
    | none => (none, none)
    | some sd =>
      match aget sd bn with
      | some (s, d) => (some s, some d)
      | none => ((none : Option String), (none : Option String))
  if (aget st.nodes node_name).isSome then
    foldE (fun s bn =>
      addConnection s node_name bn (devsFor bn).1 (devsFor bn).2) st conns
  else if (aget st.nodes (mkName node_name 1)).isSome then
    foldE (fun s j =>
      foldE (fun s2 bn =>
        addConnection s2 (mkName node_name j) bn (devsFor bn).1
          (devsFor bn).2) s conns)
      st (groupIdx st.nodes node_name)
  else
    .error (.config ("Non existing node in connect string for node "
      ++ node_name))

/-- One iteration of the wiring loop of `parse` (lines 274-283): the
declared `connect` list wins; with no declared list the discovered
inter-node devices supply the peer names; with neither the node is
skipped. -/
def wiringStep (cds : CDs) (st : Core) (nc : NodeConfig) : Except PErr Core :=
  let node_name := (nc.name).getD ""
  let srcs := aget cds node_name
  if nc.connect.isEmpty then
    match srcs with
    | some sd =>
      if sd.isEmpty then .ok st
      else addAllConnections st node_name (sd.map (·.1)) srcs
    | none => .ok st
  else addAllConnections st node_name nc.connect srcs

/-! ## Post-pass (parse step D, lines 284-293, 550-563) and `parse` -/

/-- Ordered insertion (stable, ascending). -/
def insertSorted (x : String) : List String → List String
  | [] => [x]
  | y :: ys => if decide (x ≤ y) then x :: y :: ys else y :: insertSorted x ys

/-- Lexicographic sort of the node names (`sorted(self.nodes.keys())`),
as a structurally recursive insertion sort. -/
def sortStr (l : List String) : List String :=
  l.foldr insertSorted []

/-- `self.node_list.append(...)` loop (lines 284-285). -/
def nodeListPhase (st : Core) : Core :=
  { st with node_list := sortStr (st.nodes.map (·.1)) }

/-- The `add_user_image` loop (lines 286-288): append the user-image
channel to every worker. -/
def imagePhase (st : Core) : Core :=
  st.node_list.foldl (fun s nm =>
    { s with nodes := aupd s.nodes nm (fun n =>
        { n with channels := n.channels ++ [imageChan] }) }) st

/-- The per-node transformation of `resolve_path_info` (lines 553-563):
set `path_info` from the top channel, upgrade the replica count of
writable top channels, and promote `replicate = 0` to `1`. -/
def resolveNodeFn (account : String) (replica_count : Int) (n : ZvmNode) :
    ZvmNode :=
  match n.channels.head? with
  | none => n
  | some tc =>
    let n1 :=
      if isSwiftLoc tc.path then
        if accLand tc.access (ACCESS_READABLE + ACCESS_CDR) ≠ 0 then
          { n with path_info := some ((tc.path.map Location.pathStr).getD "") }
        else if accLand tc.access ACCESS_WRITABLE ≠ 0 ∧ n.replicate > 0 then
          { n with path_info := some ((tc.path.map Location.pathStr).getD ""),
                   replicate := replica_count }
        else { n with path_info := some ("/" ++ account) }
      else n
    if n1.replicate = 0 then { n1 with replicate := 1 } else n1

/-- `resolve_path_info(account_name, replica_count)` (lines 550-563).
A worker without channels makes the source raise a bare `IndexError`. -/
def resolvePathInfo (st : Core) (account : String) (replica_count : Int) :
    Except PErr Core :=
  foldE (fun s nm =>
    match aget s.nodes nm with
    | none => .error (.python "AttributeError: node_list entry missing")
    | some n =>
      match n.channels.head? with
      | none => .error (.python "IndexError: list index out of range")
      | some _ =>
        let nodes1 := aupd s.nodes nm (resolveNodeFn account replica_count)
        .ok { s with nodes := nodes1 })
    st st.node_list

/-- `self.total_count = 0; for n in self.node_list: self.total_count +=
n.replicate` (lines 291-293). -/
def totalCount (st : Core) : Int :=
  st.node_list.foldl (fun a nm =>
    a + ((aget st.nodes nm).map (·.replicate)).getD 0) 0

/-- `ClusterConfigParser.parse(cluster_config, add_user_image,
account_name, replica_count)` (lines 157-293).  The incoming mutable state
`st0` is reset on entry (lines 167-169) and `total_count` is recomputed at
the end (lines 291-293), so the result never depends on `st0`. -/
def parse (cfg : ParserCfg) (cb : Callbacks) (st0 : ParserState)
    (cluster_config : List NodeConfig) (add_user_image : Bool)
    (account_name : Option String) (replica_count : Int) :
    Except PErr ParserState :=
  let st1 := { st0 with nodes := [], node_id := 1, node_list := [] }
  let core0 : Core := { nodes := st1.nodes, node_id := st1.node_id,
                        node_list := st1.node_list }
  match foldE (processNode cfg cb) (core0, ([] : CDs)) cluster_config with
  | .error e => .error e
  | .ok (core1, cds) =>
    match foldE (wiringStep cds) core1 cluster_config with
    | .error e => .error e
    | .ok core2 =>
      let core3 := nodeListPhase core2
      let core4 := if add_user_image then imagePhase core3 else core3
      match (if optFalsy account_name then .ok core4
             else resolvePathInfo core4 (account_name.getD "") replica_count) with
      | .error e => .error e
      | .ok core5 =>
        .ok { nodes := core5.nodes, node_id := core5.node_id,
              node_list := core5.node_list, total_count := totalCount core5 }

/-! ## Connect-string rendering (`build_connect_string`, lines 333-375) -/

/-- Option-valued traversal (`none` models an `AttributeError` on a
missing dict entry aborting the loop). -/
def optMapM {α β : Type} (g : α → Option β) : List α → Option (List β)
  | [] => some []
  | a :: l =>
    match g a with
    | none => none
    | some b => (optMapM g l).map (fun bs => b :: bs)

/-- The semicolon-joined protocol field: `tcp:<id + i * node_count>:<port>`
for `i in range(replicate)`; bind lines use port `"0"`, connect lines the
empty port. -/
def protoField (id : Nat) (repl : Int) (node_count : Nat) (port : String) :
    String :=
  String.intercalate ";" ((List.range repl.toNat).map
    (fun i => "tcp:" ++ toString (id + i * node_count) ++ ":" ++ port))

/-- `build_connect_string(node)` (lines 333-375), resolving peer ids and
replica counts through the nodes dict.  The source method mutates
`node.bind` and `node.connect` into string lists; here the two rendered
lists are returned.  An empty nodes dict makes the source return with the
node untouched (modelled as `none`); a peer name missing from the dict
would raise an `AttributeError` (also `none`, unreachable from `parse`
output). -/
def buildConnectString (cfg : ParserCfg) (st : Core) (node : ZvmNode) :
    Option (List String × List String) :=
  if st.nodes.isEmpty then none
  else
    match optMapM (fun bd =>
        (aget st.nodes bd.1).map (fun d =>
          String.intercalate ","
            [protoField d.id d.replicate st.node_list.length "0",
             bd.2, "0,0", cfg.reads, cfg.rbytes, "0,0"])) node.bind with
    | none => none
    | some bindStrs =>
      match optMapM (fun bd =>
          (aget st.nodes bd.1).map (fun d =>
            String.intercalate ","
              [protoField d.id d.replicate st.node_list.length "",
               bd.2, "0,0", "0,0", cfg.writes, cfg.wbytes])) node.connect with
      | none => none
      | some connStrs => some (bindStrs, connStrs)

/-! ## Name service (`proxyquery.py`, `NameService._run`, lines 135-181)

The datagram loop is embedded as a step function over the service state;
one registration datagram (already unpacked from the wire format) drives
one iteration.  `struct` parsing and packing are bit-level and not
re-modelled; a reply is represented by its destination peer and the
resolved `(ip, port)` records written into the echoed buffer. -/

/-- One parsed registration datagram: peer id, `(connecting_peer, port)`
bind records, connect placeholders, and the datagram's source address. -/
structure NsReg where
  peer : Nat
  binds : List (Nat × Nat) := []
  connects : List Nat := []
  srcIp : String
  srcPort : Nat
deriving DecidableEq, Repr

/-- One reply datagram: destination peer (and its address) plus the
resolved `(ip, port)` connect records. -/
structure NsReply where
  dest : Nat
  destIp : String
  destPort : Nat
  records : List (String × Nat)
deriving DecidableEq, Repr

/-- Nat-keyed association lists for the three service dicts. -/
def nget {β : Type} (l : List (Nat × β)) (k : Nat) : Option β :=
  (l.find? (fun p => p.1 == k)).map (·.2)

/-- Update-or-append for Nat-keyed association lists. -/
def nset {β : Type} (l : List (Nat × β)) (k : Nat) (v : β) : List (Nat × β) :=
  if (l.find? (fun p => p.1 == k)).isSome then
    l.map (fun p => if p.1 == k then (p.1, v) else p)
  else l ++ [(k, v)]

/-- Name-service state: declared peer count, `bind_map`, `conn_map`
(the stored connect placeholders of each peer's buffer) and `peer_map`
(source addresses). -/
structure NsState where
  peers : Nat
  bind_map : List (Nat × List (Nat × Nat)) := []
  conn_map : List (Nat × List Nat) := []
  peer_map : List (Nat × (String × Nat)) := []
deriving DecidableEq, Repr

/-- Resolve one peer's reply (lines 163-173): each connect placeholder
`h` gets port `bind_map[h][peer]` and ip `peer_map[h]`, collapsed to
`127.0.0.1` when both peers share a host.  A missing entry is a Python
`KeyError` (`none`). -/
def nsResolve (st : NsState) (peer : Nat) : Option (List (String × Nat)) :=
  match nget st.conn_map peer, nget st.peer_map peer with
  | some connects, some addr =>
    connects.mapM (fun h =>
      match nget st.bind_map h, nget st.peer_map h with
      | some bm, some haddr =>
        match nget bm peer with
        | some port =>
          some (if haddr.1 = addr.1 then ("127.0.0.1", port) else (haddr.1, port))
        | none => none
      | _, _ => none)
  | _, _ => none

/-- The reply broadcast (lines 161-174): iterate the registered peers in
order, sending one reply each; a `KeyError` during resolution aborts the
rest of the broadcast (the exception is swallowed by the handler). -/
def nsBroadcastGo (st : NsState) : List (Nat × (String × Nat)) → List NsReply
  | [] => []
  | (p, addr) :: rest =>
    match nsResolve st p with
    | some recs =>
      { dest := p, destIp := addr.1, destPort := addr.2, records := recs } ::
        nsBroadcastGo st rest
    | none => []

/-- Replies sent when the peer count condition holds. -/
def nsBroadcast (st : NsState) : List NsReply := nsBroadcastGo st st.peer_map

/-- One loop iteration of `_run` (lines 139-176): merge the bind records
into `bind_map[peer]`, overwrite `conn_map[peer]` and `peer_map[peer]`,
then broadcast when the number of distinct registered peers equals the
declared count. -/
def nsStep (st : NsState) (r : NsReg) : NsState × List NsReply :=
  let bm := (nget st.bind_map r.peer).getD []
  let bm1 := r.binds.foldl (fun m hp => nset m hp.1 hp.2) bm
  let st1 : NsState :=
    { st with bind_map := nset st.bind_map r.peer bm1,
              conn_map := nset st.conn_map r.peer r.connects,
              peer_map := nset st.peer_map r.peer (r.srcIp, r.srcPort) }
  if st1.peer_map.length = st.peers then (st1, nsBroadcast st1) else (st1, [])

/-- Run the service over a list of incoming registrations, collecting all
reply datagrams in order. -/
def nsRun (st : NsState) : List NsReg → NsState × List NsReply
  | [] => (st, [])
  | r :: rs =>
    let (st1, out1) := nsStep st r
    let (st2, out2) := nsRun st1 rs
    (st2, out1 ++ out2)

/-! ## Manifest builder, fstab slice (`prepare_zerovm_files`, lines
395-469)

Only the per-channel loop is embedded: it is the part that builds the
fstab stanza (the part claim C9 is about) together with the `Channel=`
manifest lines.  The env/args/nvram assembly below it never touches
fstab membership. -/

/-- `CHANNEL_TYPE_MAP` (lines 8-17). -/
def CHANNEL_TYPE_MAP : List (String × Nat) :=
  [("stdin", 0), ("stdout", 0), ("stderr", 0), ("input", 3), ("output", 3),
   ("debug", 0), ("image", 1), ("sysimage", 3)]

/-- One channel entry of a serialized node config
(`config['channels']`). -/
structure MChan where
  device : String
  access : Nat
  lpath : String := ""
  path : Option String := none
  removable : String := "no"
  mode : Option String := none
deriving DecidableEq, Repr

/-- Accumulator of the channel loop: manifest text, optional fstab text,
seen device list and device-mode mapping. -/
structure MAcc where
  mnfst : String := ""
  fstab : Option String := none
  channels : List String := []
  mapping : List (String × String) := []
deriving DecidableEq, Repr

/-- `add_to_fstab(fstab, device, access, removable, mountpoint)`
(lines 421-426). -/
def addToFstab (fstab : Option String) (device access removable mountpoint :
    String) : Option String :=
  some ((fstab.getD "[fstab]\n") ++ "channel=/dev/" ++ device
    ++ ", mountpoint=" ++ mountpoint ++ ", access=" ++ access
    ++ ", removable=" ++ removable ++ "\n")

/-- The channel type lookup of the channel loop (lines 430-436): unknown
devices that are not sysimage devices are skipped. -/
def mChanTy (cfg : ParserCfg) (device : String) : Option Nat :=
  match aget CHANNEL_TYPE_MAP device with
  | some t => some t
  | none =>
    if isSysimage cfg device then aget CHANNEL_TYPE_MAP "sysimage"
    else none

/-- One iteration of the channel loop (lines 429-469).  `isLocal` models
the `ch is local_object` identity test.  The fstab-relevant branches: a
sysimage device always adds a read-only entry; the append (CDR) branch
adds a removable entry when `device in 'image'` holds, a Python
substring test of the device name inside the string `'image'`. -/
def mChanStep (cfg : ParserCfg) (isLocal : MChan → Bool) (acc : MAcc)
    (ch : MChan) : MAcc :=
  match mChanTy cfg ch.device with
  | none => acc
  | some t =>
    let fstab1 :=
      if isSysimage cfg ch.device then
        addToFstab acc.fstab ch.device "ro" "no" "/"
      else acc.fstab
    let line :=
      if ch.access &&& ACCESS_READABLE ≠ 0 then
        "Channel=" ++ ch.lpath ++ ",/dev/" ++ ch.device ++ ","
          ++ toString t ++ ",0," ++ cfg.reads ++ "," ++ cfg.rbytes
          ++ ",0,0\n"
      else if ch.access &&& ACCESS_CDR ≠ 0 then
        "Channel=" ++ ch.lpath ++ ",/dev/" ++ ch.device ++ ","
          ++ toString t ++ ",0," ++ cfg.reads ++ "," ++ cfg.rbytes
          ++ "," ++ cfg.writes ++ "," ++ cfg.wbytes ++ "\n"
      else if ch.access &&& ACCESS_WRITABLE ≠ 0 then
        let tag := if optFalsy ch.path || isLocal ch then "1" else "0"
        "Channel=" ++ ch.lpath ++ ",/dev/" ++ ch.device ++ ","
          ++ toString t ++ "," ++ tag ++ ",0,0," ++ cfg.writes ++ ","
          ++ cfg.wbytes ++ "\n"
      else if ch.access &&& ACCESS_NETWORK ≠ 0 then
        "Channel=" ++ ch.lpath ++ ",/dev/" ++ ch.device ++ ","
          ++ toString t ++ ",0,0,0," ++ cfg.writes ++ "," ++ cfg.wbytes
          ++ "\n"
      else ""
    let fstab2 :=
      if ch.access &&& ACCESS_READABLE ≠ 0 then fstab1
      else if ch.access &&& ACCESS_CDR ≠ 0 then
        (if strContains "image" ch.device then
          addToFstab fstab1 ch.device "ro" ch.removable "/"
         else fstab1)
      else fstab1
    let mapping1 :=
      match ch.mode with
      | some m => if m = "" then acc.mapping else aset acc.mapping ch.device m
      | none => acc.mapping
    { mnfst := acc.mnfst ++ line, fstab := fstab2,
      channels := acc.channels ++ [ch.device], mapping := mapping1 }

/-- The whole channel loop of `prepare_zerovm_files`. -/
def mChannelsPass (cfg : ParserCfg) (isLocal : MChan → Bool)
    (chans : List MChan) : MAcc :=
  chans.foldl (mChanStep cfg isLocal) {}

/-! ## Specification-side definitions

Written from the words of the spec, to be compared with the
source-derived definitions above. -/

/-- Written from the spec: project the stored captures into a path
left-to-right, the i-th `*` consuming the i-th capture; leftover `*`
remain once the captures run out, and leftover captures are unused. -/
def substGo : List Char → List (List Char) → List Char
  | l, [] => l
  | [], _ :: _ => []
  | c :: cs, w :: ws =>
    if c = '*' then w ++ substGo cs ws else c :: substGo cs (w :: ws)

/-- Written from the spec: left-to-right wildcard projection of a URL. -/
def substStars (s : String) (ws : List String) : String :=
  ⟨substGo s.toList (ws.map (·.toList))⟩

/-- Written from the spec (section 4.2 step E): a bind line is the
semicolon-joined listening slots `tcp:<peer_id + i*total>:0`, followed by
the device path, type flags `0,0`, the configured read IOPS and byte
caps, and `0,0`. -/
def specBindLine (cfg : ParserCfg) (total : Nat) (peer : ZvmNode)
    (dev : String) : String :=
  String.intercalate ";" ((List.range peer.replicate.toNat).map
      (fun i => "tcp:" ++ toString (peer.id + i * total) ++ ":0"))
    ++ "," ++ dev ++ ",0,0," ++ cfg.reads ++ "," ++ cfg.rbytes ++ ",0,0"

/-- Written from the spec (section 4.2 step E): a connect line is the
semicolon-joined dialing slots `tcp:<peer_id + i*total>:` with an empty
port, followed by the device path, type flags `0,0`, `0,0`, and the
configured write IOPS and byte caps. -/
def specConnectLine (cfg : ParserCfg) (total : Nat) (peer : ZvmNode)
    (dev : String) : String :=
  String.intercalate ";" ((List.range peer.replicate.toNat).map
      (fun i => "tcp:" ++ toString (peer.id + i * total) ++ ":"))
    ++ "," ++ dev ++ ",0,0,0,0," ++ cfg.writes ++ "," ++ cfg.wbytes

/-! ## Channel-provenance classification (for the ordering claims) -/

/-- Routing class of a materialized channel, mirroring the branch order of
lines 192-205: `0` read, `1` append, `2` write, `3` other (which includes
unknown-access sysimage channels). -/
def routeOf (c : ZvmChannel) : Nat :=
  if c.access = none then 3
  else if accLand c.access ACCESS_READABLE ≠ 0 then 0
  else if accLand c.access ACCESS_CDR ≠ 0 then 1
  else if accLand c.access ACCESS_WRITABLE ≠ 0 then 2
  else 3

/-- The channels of a file list that are materialized into one of the
three partition lists (zvm paths and failing entries excluded), in job
order. -/
def materialChans (cfg : ParserCfg) (nodeName : String)
    (fl : List FileConfig) : List ZvmChannel :=
  fl.filterMap (fun f =>
    match createChannel cfg nodeName f with
    | .ok c =>
      if isZvmLoc c.path then none
      else if c.access = none then
        (if isSysimage cfg c.device then some c else none)
      else some c
    | .error _ => none)

/-- A channel of read class (the readable bit is set). -/
def isReadCh (c : ZvmChannel) : Prop := accLand c.access ACCESS_READABLE ≠ 0

/-- A channel of append class (no readable bit, CDR bit set). -/
def isCdrCh (c : ZvmChannel) : Prop :=
  accLand c.access ACCESS_READABLE = 0 ∧ accLand c.access ACCESS_CDR ≠ 0

/-- A channel of write class. -/
def isWriteCh (c : ZvmChannel) : Prop :=
  accLand c.access ACCESS_READABLE = 0 ∧ accLand c.access ACCESS_CDR = 0 ∧
    accLand c.access ACCESS_WRITABLE ≠ 0

/-- A channel of other class: no read/append/write bit, or a sysimage
channel upgraded to `RANDOM | READABLE` by line 259. -/
def isOtherCh (c : ZvmChannel) : Prop :=
  (accLand c.access ACCESS_READABLE = 0 ∧ accLand c.access ACCESS_CDR = 0 ∧
    accLand c.access ACCESS_WRITABLE = 0) ∨
  c.access = some (ACCESS_RANDOM + ACCESS_READABLE)

/-- Channel lists that are entirely read class. -/
def ChansR (l : List ZvmChannel) : Prop := ∀ x ∈ l, isReadCh x

/-- Channel lists shaped reads-then-appends. -/
def ChansRC (l : List ZvmChannel) : Prop :=
  ∃ a b, l = a ++ b ∧ (∀ x ∈ a, isReadCh x) ∧ (∀ x ∈ b, isCdrCh x)

/-- Channel lists shaped reads-appends-writes. -/
def ChansRCW (l : List ZvmChannel) : Prop :=
  ∃ a b c, l = a ++ b ++ c ∧ (∀ x ∈ a, isReadCh x) ∧ (∀ x ∈ b, isCdrCh x) ∧
    (∀ x ∈ c, isWriteCh x)

/-- Channel lists shaped reads-appends-writes-others. -/
def ChansRCWO (l : List ZvmChannel) : Prop :=
  ∃ a b c d, l = a ++ b ++ c ++ d ∧ (∀ x ∈ a, isReadCh x) ∧
    (∀ x ∈ b, isCdrCh x) ∧ (∀ x ∈ c, isWriteCh x) ∧ (∀ x ∈ d, isOtherCh x)

/-- Every worker's channel list satisfies `P`. -/
def NodesCh (P : List ZvmChannel → Prop) (st : Core) : Prop :=
  ∀ p ∈ st.nodes, P p.2.channels

/-! ## Planner state invariants -/

/-- Every dict entry binds a name to the node carrying that name. -/
def KeysNamed (nodes : List (String × ZvmNode)) : Prop :=
  ∀ p ∈ nodes, p.2.name = p.1

/-- Worker ids are the dense sequence `1..N` in creation order and the
next id counter is `N + 1`. -/
def CoreIds (st : Core) : Prop :=
  st.nodes.map (fun p => p.2.id) = List.range' 1 st.nodes.length ∧
    st.node_id = st.nodes.length + 1

/-- Worker names are unique and keys match names. -/
def CoreNames (st : Core) : Prop :=
  (st.nodes.map (·.1)).Nodup ∧ KeysNamed st.nodes

/-- Connection symmetry: every connect entry of a worker has a matching
bind entry on the named peer and vice versa, and no worker appears as its
own peer. -/
def Sym (nodes : List (String × ZvmNode)) : Prop :=
  (∀ p ∈ nodes, ∀ e ∈ p.2.connect,
    e.1 ≠ p.1 ∧ ∃ q ∈ nodes, q.1 = e.1 ∧ ∃ d, (p.1, d) ∈ q.2.bind) ∧
  (∀ p ∈ nodes, ∀ e ∈ p.2.bind,
    e.1 ≠ p.1 ∧ ∃ q ∈ nodes, q.1 = e.1 ∧ ∃ d, (p.1, d) ∈ q.2.connect)

/-- The combined planner invariant carried through `parse`. -/
def Inv (st : Core) : Prop := CoreIds st ∧ CoreNames st ∧ Sym st.nodes

/-! ## Concrete inputs for witnesses and counterexamples -/

/-- Extract the success state of a parse result (defaulting on error). -/
def okState (e : Except PErr ParserState) : ParserState :=
  match e with
  | .ok s => s
  | .error _ => {}

/-- Demo parser configuration. -/
def cfgDemo : ParserCfg := { sysimage_devices := ["sysdev"] }

/-- Parser configuration whose sysimage devices include `im`, a proper
substring of `image`. -/
def cfgIm : ParserCfg := { sysimage_devices := ["im"] }

/-- Demo callbacks: every container holds `part1`, `part2`; captures are
the trailing character of the matched object path. -/
def cbDemo : Callbacks :=
  { listAccount := fun _ _ => some ["c"],
    listContainer := fun _ _ _ => some ["part1", "part2"],
    captures := fun _ concrete => [concrete] }

/-- Demo exec stanza. -/
def exeDemo : ExecConfig := { path := some "swift://acc/bin/prog.nexe" }

/-- One node with a pathless stdout channel. -/
def jobStdout : List NodeConfig :=
  [{ name := some "a", exec := some exeDemo,
     file_list := [{ device := some "stdout" }] }]

/-- Two nodes wired by a declared connect list. -/
def jobConnect : List NodeConfig :=
  [{ name := some "a", exec := some exeDemo,
     file_list := [{ device := some "stdout" }] },
   { name := some "b", exec := some exeDemo, connect := ["a"],
     file_list := [{ device := some "stdout" }] }]

/-- One node listing two pure-read channels, `stdin` before `input`. -/
def jobTwoReads : List NodeConfig :=
  [{ name := some "a", exec := some exeDemo,
     file_list := [{ device := some "stdin", path := some "swift://acc/c/x1" },
                   { device := some "input", path := some "swift://acc/c/x2" },
                   { device := some "stdout" }] }]

/-- A replicated node (`count = 2`) listing itself in `connect`. -/
def jobSelfRepl : List NodeConfig :=
  [{ name := some "a", exec := some exeDemo, count := some 2, connect := ["a"],
     file_list := [{ device := some "stdout" }] }]

/-- A single node listing itself in `connect` (spec scenario 5). -/
def jobSelfExact : List NodeConfig :=
  [{ name := some "a", exec := some exeDemo, connect := ["a"],
     file_list := [{ device := some "stdout" }] }]

/-- One node with a pathless `output` channel. -/
def jobOutputNoPath : List NodeConfig :=
  [{ name := some "a", exec := some exeDemo,
     file_list := [{ device := some "output" }] }]

/-- A name-service registration without bind or connect records. -/
def regDemo : NsReg := { peer := 1, srcIp := "10.0.0.1", srcPort := 999 }

/-- The fstab value after the sysimage pass of one channel-loop iteration
(line 439), before the append branch is considered. -/
def mFstabMid (cfg : ParserCfg) (acc : MAcc) (ch : MChan) : Option String :=
  if isSysimage cfg ch.device then addToFstab acc.fstab ch.device "ro" "no" "/"
  else acc.fstab

/-- A demo worker with one bind and one connect entry. -/
def nodeBW : ZvmNode :=
  { id := 2, name := "b", exe := .raw "e",
    bind := [("a", "/dev/in/b")], connect := [("a", "/dev/out/a")] }

/-- A demo planner core holding a replicated peer `a` and `nodeBW`. -/
def stW : Core :=
  { nodes := [("a", { id := 1, name := "a", exe := .raw "e", replicate := 2 }),
              ("b", nodeBW)],
    node_id := 3, node_list := ["a", "b"] }

/-- Parsed demo state for the single-node job. -/
def psStdout : ParserState :=
  okState (parse cfgDemo cbDemo {} jobStdout false none 1)

/-- Parsed demo state for the declared-connect job. -/
def psConnect : ParserState :=
  okState (parse cfgDemo cbDemo {} jobConnect false none 1)

/-- Parsed demo state for the replicated self-connect job. -/
def psSelfRepl : ParserState :=
  okState (parse cfgDemo cbDemo {} jobSelfRepl false none 1)

/-- Parsed demo state for the two-read job. -/
def psTwoReads : ParserState :=
  okState (parse cfgDemo cbDemo {} jobTwoReads false none 1)

/-- Extract the success value of a `processNode` call (defaulting on
error). -/
def okPN (e : Except PErr (Core × CDs)) : Core × CDs :=
  match e with
  | .ok s => s
  | .error _ => (⟨[], 1, []⟩, [])

/-- The two-read demo node descriptor (the single node of
`jobTwoReads`). -/
def ncTwoReads : NodeConfig :=
  { name := some "a", exec := some exeDemo,
    file_list := [{ device := some "stdin", path := some "swift://acc/c/x1" },
                  { device := some "input", path := some "swift://acc/c/x2" },
                  { device := some "stdout" }] }

/-- Processed demo output for the two-read node. -/
def pnTwoReads : Core × CDs :=
  okPN (processNode cfgDemo cbDemo (⟨⟨[], 1, []⟩, []⟩) ncTwoReads)

/-! # Theorems -/

/-! ## Generic fold and dictionary lemmas -/

theorem foldE_ok_inv {σ α : Type} {f : σ → α → Except PErr σ} {P : σ → Prop}
    (hf : ∀ s a s1, P s → f s a = .ok s1 → P s1) :
    ∀ l s s1, P s → foldE f s l = .ok s1 → P s1 := by
  intro l
  induction l with
  | nil => intro s s1 hs h; cases h; exact hs
  | cons a l ih =>
    intro s s1 hs h
    rw [foldE] at h
    cases hfa : f s a with
    | ok t => rw [hfa] at h; exact ih t s1 (hf s a t hs hfa) h
    | error e => rw [hfa] at h; cases h

theorem foldE_append {σ α : Type} {f : σ → α → Except PErr σ} :
    ∀ l1 l2 s s2, foldE f s (l1 ++ l2) = .ok s2 →
      ∃ s1, foldE f s l1 = .ok s1 ∧ foldE f s1 l2 = .ok s2 := by
  intro l1
  induction l1 with
  | nil => intro l2 s s2 h; exact ⟨s, rfl, h⟩
  | cons a l ih =>
    intro l2 s s2 h
    rw [List.cons_append, foldE] at h
    rw [foldE]
    cases hfa : f s a with
    | ok t => rw [hfa] at h; exact ih l2 t s2 h
    | error e => rw [hfa] at h; cases h

theorem foldl_inv {σ α : Type} {f : σ → α → σ} {P : σ → Prop}
    (hf : ∀ s a, P s → P (f s a)) :
    ∀ (l : List α) (s : σ), P s → P (l.foldl f s) := by
  intro l
  induction l with
  | nil => intro s hs; exact hs
  | cons a l ih => intro s hs; exact ih (f s a) (hf s a hs)

theorem aupd_map_fst {β : Type} (l : List (String × β)) (k : String)
    (f : β → β) : (aupd l k f).map (·.1) = l.map (·.1) := by
  induction l with
  | nil => rfl
  | cons p l ih =>
    simp only [aupd, List.map_cons] at ih ⊢
    rw [ih]
    congr 1
    by_cases hc : p.1 == k <;> simp [hc]

theorem aupd_map_id {β : Type} {g : β → Nat} (l : List (String × β))
    (k : String) (f : β → β) (hf : ∀ b, g (f b) = g b) :
    (aupd l k f).map (fun p => g p.2) = l.map (fun p => g p.2) := by
  induction l with
  | nil => rfl
  | cons p l ih =>
    simp only [aupd, List.map_cons] at ih ⊢
    rw [ih]
    congr 1
    by_cases hc : p.1 == k <;> simp [hc, hf]

theorem aupd_length {β : Type} (l : List (String × β)) (k : String)
    (f : β → β) : (aupd l k f).length = l.length := by
  simp [aupd]

theorem mem_aupd {β : Type} {l : List (String × β)} {k : String} {f : β → β}
    {p : String × β} (h : p ∈ aupd l k f) :
    ∃ q ∈ l, p.1 = q.1 ∧ (p.2 = q.2 ∨ p.2 = f q.2) := by
  simp only [aupd, List.mem_map] at h
  obtain ⟨q, hq, he⟩ := h
  by_cases hc : q.1 == k
  · rw [if_pos hc] at he
    exact ⟨q, hq, by rw [← he], Or.inr (by rw [← he])⟩
  · rw [if_neg hc] at he
    exact ⟨q, hq, by rw [← he], Or.inl (by rw [← he])⟩

theorem mem_aupd_of_mem {β : Type} {l : List (String × β)} {k : String}
    {f : β → β} {q : String × β} (hq : q ∈ l) :
    ∃ p ∈ aupd l k f, p.1 = q.1 ∧ (p.2 = q.2 ∨ p.2 = f q.2) := by
  refine ⟨if q.1 == k then (q.1, f q.2) else q, ?_, ?_⟩
  · simp only [aupd, List.mem_map]; exact ⟨q, hq, rfl⟩
  · by_cases hc : q.1 == k <;> simp [hc]

theorem aget_mem {β : Type} {l : List (String × β)} {k : String} {v : β}
    (h : aget l k = some v) : (k, v) ∈ l := by
  simp only [aget, Option.map_eq_some'] at h
  obtain ⟨p, hp, hv⟩ := h
  have hm := List.mem_of_find?_eq_some hp
  have hk := List.find?_some hp
  obtain ⟨a, b⟩ := p
  simp only [beq_iff_eq] at hk
  dsimp at hk hv
  subst hk
  subst hv
  exact hm

theorem aget_none {β : Type} {l : List (String × β)} {k : String}
    (h : aget l k = none) : ∀ p ∈ l, p.1 ≠ k := by
  intro p hp
  simp only [aget, Option.map_eq_none', List.find?_eq_none] at h
  have := h p hp
  simpa using this

theorem aget_isSome_of_mem {β : Type} {l : List (String × β)} {p : String × β}
    (h : p ∈ l) : (aget l p.1).isSome := by
  cases hf : l.find? (fun q => q.1 == p.1) with
  | some q => simp [aget, hf]
  | none =>
    rw [List.find?_eq_none] at hf
    exact absurd (by simp : (p.1 == p.1) = true) (by simpa using hf p h)

/-! ## Claim C10: parse resets planner state -/

/-- Claim C10: `parse` resets `nodes`, `node_id` and `node_list` on entry
and recomputes `total_count` at the end, so its result is independent of
the mutable planner state left by any earlier call: two calls with equal
arguments and callbacks agree exactly. -/
theorem parse_reset_deterministic (cfg : ParserCfg) (cb : Callbacks)
    (s1 s2 : ParserState) (ccfg : List NodeConfig) (aui : Bool)
    (an : Option String) (rc : Int) :
    parse cfg cb s1 ccfg aui an rc = parse cfg cb s2 ccfg aui an rc := rfl

/-! ## Claim C3: wildcard projection into write paths -/

theorem srfGo_no_star (rep : List Char) (l : List Char)
    (h : l.count '*' = 0) : starReplaceFirstGo rep l = l := by
  induction l with
  | nil => rfl
  | cons c cs ih =>
    rw [List.count_cons] at h
    rw [starReplaceFirstGo]
    have hc : ¬c = '*' := by
      intro hc; subst hc; simp at h
    rw [if_neg hc, ih (by omega)]

theorem srfGo_count (rep : List Char) (l : List Char)
    (h : 0 < l.count '*') :
    (starReplaceFirstGo rep l).count '*' = l.count '*' - 1 + rep.count '*' := by
  induction l with
  | nil => simp at h
  | cons c cs ih =>
    rw [starReplaceFirstGo]
    by_cases hc : c = '*'
    · subst hc
      simp [List.count_cons, List.count_append, Nat.add_comm]
    · rw [if_neg hc, List.count_cons, List.count_cons]
      have hcs : 0 < cs.count '*' := by
        rw [List.count_cons] at h; simpa [hc] using h
      rw [ih hcs]
      simp only [beq_iff_eq, hc, if_false]
      omega

theorem substGo_nil_ws (l : List Char) : substGo l [] = l := by
  cases l <;> rfl

theorem substGo_cons_ne {c : Char} (hc : ¬c = '*') (l : List Char)
    (ws : List (List Char)) : substGo (c :: l) ws = c :: substGo l ws := by
  cases ws with
  | nil => rw [substGo_nil_ws, substGo_nil_ws]
  | cons w ws => rw [substGo, if_neg hc]

theorem substGo_skip {w : List Char} (hw : w.count '*' = 0)
    (x : List Char) (ws : List (List Char)) :
    substGo (w ++ x) ws = w ++ substGo x ws := by
  induction w with
  | nil => rfl
  | cons c cs ih =>
    rw [List.count_cons] at hw
    have hc : ¬c = '*' := by intro hc; subst hc; simp at hw
    rw [List.cons_append, substGo_cons_ne hc, ih (by omega)]
    rfl

theorem srfGo_then_subst {w : List Char} (hw : w.count '*' = 0) :
    ∀ (l : List Char) (ws : List (List Char)),
      substGo (starReplaceFirstGo w l) ws = substGo l (w :: ws) := by
  intro l
  induction l with
  | nil => intro ws; cases ws <;> rfl
  | cons c cs ih =>
    intro ws
    rw [starReplaceFirstGo]
    by_cases hc : c = '*'
    · subst hc
      rw [if_pos rfl, substGo_skip hw, substGo]
      rw [if_pos rfl]
    · rw [if_neg hc, substGo_cons_ne hc, substGo_cons_ne hc, ih ws]

/-- The string-level capture fold of `_extract_stored_wildcards` and
`_resolve_wildcards`, at the character-list level. -/
theorem fold_srf_toList (url : String) (wcs : List String) :
    (wcs.foldl (fun u wc => starReplaceFirst u wc) url).toList =
      (wcs.map (·.toList)).foldl
        (fun u w => starReplaceFirstGo w u) url.toList := by
  induction wcs generalizing url with
  | nil => rfl
  | cons w ws ih =>
    rw [List.foldl_cons, List.map_cons, List.foldl_cons]
    exact ih (starReplaceFirst url w)

theorem fold_srfGo_count (ws : List (List Char))
    (hw : ∀ w ∈ ws, w.count '*' = 0) :
    ∀ l : List Char,
      (ws.foldl (fun u w => starReplaceFirstGo w u) l).count '*' =
        l.count '*' - ws.length := by
  induction ws with
  | nil => intro l; simp
  | cons w ws ih =>
    intro l
    rw [List.foldl_cons]
    by_cases hl : 0 < l.count '*'
    · rw [ih (fun w hmem => hw w (List.mem_cons_of_mem _ hmem)),
        srfGo_count w l hl, hw w (List.mem_cons_self _ _)]
      simp only [List.length_cons]
      omega
    · have hl0 : l.count '*' = 0 := by omega
      rw [srfGo_no_star w l hl0,
        ih (fun w hmem => hw w (List.mem_cons_of_mem _ hmem)), hl0]
      simp

theorem fold_srfGo_eq_subst (ws : List (List Char))
    (hw : ∀ w ∈ ws, w.count '*' = 0) :
    ∀ l : List Char,
      ws.foldl (fun u w => starReplaceFirstGo w u) l = substGo l ws := by
  induction ws with
  | nil => intro l; rw [List.foldl_nil, substGo_nil_ws]
  | cons w ws ih =>
    intro l
    rw [List.foldl_cons,
      ih (fun w hmem => hw w (List.mem_cons_of_mem _ hmem)),
      srfGo_then_subst (hw w (List.mem_cons_self _ _))]

/-- Claim C3 (amended): with the stored captures free of `*`, the write
path is produced by the left-to-right projection `substStars` where each
`*` consumes one capture in order; the projection succeeds exactly when
the path has at most as many `*` as there are captures (paths with fewer
`*` leave the extra captures unused), the successful result has no `*`
left, and a path whose `*` outnumber the captures fails `parse` with the
unresolved-wildcard error. -/
theorem extractStoredWildcards_spec (url : String) (wcs : List String)
    (hw : ∀ wc ∈ wcs, countStars wc = 0) :
    (countStars url ≤ wcs.length →
      extractStoredWildcards url wcs = .ok (substStars url wcs) ∧
      countStars (substStars url wcs) = 0) ∧
    (wcs.length < countStars url →
      extractStoredWildcards url wcs = .error (.config
        ("Wildcards in input cannot be resolved into output path " ++ url))) := by
  have hw' : ∀ w ∈ wcs.map (·.toList), w.count '*' = 0 := by
    intro w hmem
    obtain ⟨s, hs, rfl⟩ := List.mem_map.mp hmem
    exact hw s hs
  have hcount : countStars (wcs.foldl (fun u wc => starReplaceFirst u wc) url)
      = countStars url - wcs.length := by
    show (wcs.foldl (fun u wc => starReplaceFirst u wc) url).toList.count '*' = _
    rw [fold_srf_toList, fold_srfGo_count _ hw', List.length_map]
    rfl
  have heq : (wcs.foldl (fun u wc => starReplaceFirst u wc) url).toList =
      (substStars url wcs).toList := by
    rw [fold_srf_toList, fold_srfGo_eq_subst _ hw']
    rfl
  have hstr : wcs.foldl (fun u wc => starReplaceFirst u wc) url =
      substStars url wcs := String.ext heq
  constructor
  · intro hle
    have h0 : countStars (wcs.foldl (fun u wc => starReplaceFirst u wc) url) = 0 := by
      omega
    have h0' : countStars (substStars url wcs) = 0 := hstr ▸ h0
    refine ⟨?_, h0'⟩
    simp only [extractStoredWildcards, hstr]
    rw [if_neg (by omega)]
  · intro hgt
    have hpos : 0 < countStars (wcs.foldl (fun u wc => starReplaceFirst u wc) url) := by
      omega
    simp only [extractStoredWildcards]
    rw [if_pos hpos]

/-- Claim C3 counterexample: a write path with one `*` expanded under two
stored captures succeeds with a single substitution, so the projection
does not use exactly `K = 2` substitutions. -/
theorem extract_exact_count_cex :
    extractStoredWildcards "swift://a/c/x*y" ["p", "q"] = .ok "swift://a/c/xpy" ∧
    countStars "swift://a/c/x*y" ≠ 2 := by
  exact ⟨rfl, by decide⟩

/-- Witness for the amended C3 theorem at a concrete two-star path. -/
theorem extractStoredWildcards_spec_witness :
    extractStoredWildcards "swift://a/c/o*x*" ["1", "2"] =
      .ok (substStars "swift://a/c/o*x*" ["1", "2"]) ∧
    countStars (substStars "swift://a/c/o*x*" ["1", "2"]) = 0 :=
  (extractStoredWildcards_spec "swift://a/c/o*x*" ["1", "2"]
    (by decide)).1 (by decide)

/-! ## Claim C9: the fstab removable branch -/

theorem addToFstab_ne (f : Option String) (d a r m : String) :
    addToFstab f d a r m ≠ f := by
  cases f with
  | none => simp [addToFstab]
  | some s =>
    simp only [addToFstab, Option.getD_some, ne_eq, Option.some.injEq]
    intro he
    have hl := congrArg String.length he
    simp only [String.length_append] at hl
    have h13 : ("channel=/dev/" : String).length = 13 := rfl
    omega

/-- Claim C9 (amended): in the manifest builder's channel loop, a channel
passing the type gate whose access has the CDR bit and not the READABLE
bit contributes an extra fstab entry carrying the channel's removable
flag if and only if its device name is a contiguous substring of the
string `image` (the source tests `device in 'image'`), not if and only if
it equals `image`. -/
theorem mChanStep_removable (cfg : ParserCfg) (isLocal : MChan → Bool)
    (acc : MAcc) (ch : MChan) (t : Nat)
    (hty : mChanTy cfg ch.device = some t)
    (hr : ch.access &&& ACCESS_READABLE = 0)
    (hc : ch.access &&& ACCESS_CDR ≠ 0) :
    ((mChanStep cfg isLocal acc ch).fstab =
      if strContains "image" ch.device then
        addToFstab (mFstabMid cfg acc ch) ch.device "ro" ch.removable "/"
      else mFstabMid cfg acc ch) ∧
    ((mChanStep cfg isLocal acc ch).fstab ≠ mFstabMid cfg acc ch ↔
      strContains "image" ch.device = true) := by
  have hmain : (mChanStep cfg isLocal acc ch).fstab =
      if strContains "image" ch.device then
        addToFstab (mFstabMid cfg acc ch) ch.device "ro" ch.removable "/"
      else mFstabMid cfg acc ch := by
    simp only [mChanStep, hty, mFstabMid]
    rw [if_neg (by simp [hr]), if_pos hc]
  refine ⟨hmain, ?_⟩
  rw [hmain]
  by_cases hs : strContains "image" ch.device
  · simp only [hs, if_true, iff_true]
    exact addToFstab_ne _ _ _ _ _
  · simp [hs]

/-- Claim C9 counterexample: with `im` configured as a sysimage device, an
append-access channel on device `im` (not equal to `image`) adds a
removable fstab entry, because `'im' in 'image'` holds in Python. -/
theorem fstab_substring_cex :
    (mChannelsPass cfgIm (fun _ => false)
      [{ device := "im", access := ACCESS_CDR, removable := "yes" }]).fstab =
      some ("[fstab]\nchannel=/dev/im, mountpoint=/, access=ro, removable=no\n"
        ++ "channel=/dev/im, mountpoint=/, access=ro, removable=yes\n") ∧
    "im" ≠ "image" := by
  exact ⟨rfl, by decide⟩

/-- Witness for the amended C9 theorem at a concrete append channel. -/
theorem mChanStep_removable_witness :
    (mChanStep cfgDemo (fun _ => false) {}
        { device := "image", access := ACCESS_CDR }).fstab =
      (if strContains "image" "image" then
        addToFstab (mFstabMid cfgDemo {} { device := "image", access := ACCESS_CDR })
          "image" "ro" "no" "/"
       else mFstabMid cfgDemo {} { device := "image", access := ACCESS_CDR }) :=
  (mChanStep_removable cfgDemo (fun _ => false) {}
    { device := "image", access := ACCESS_CDR } 1 rfl (by decide)
    (by decide)).1

/-! ## Claim C8: name-service reply semantics -/

theorem find?_nset_of_pos {β : Type} (k : Nat) (v : β) :
    ∀ l : List (Nat × β), (l.find? (fun p => p.1 == k)).isSome →
      (l.map (fun p => if p.1 == k then (p.1, v) else p)).find?
        (fun p => p.1 == k) = some (k, v) := by
  intro l
  induction l with
  | nil => intro hp; simp at hp
  | cons p l ih =>
    intro hp
    by_cases hc : p.1 == k
    · have hk : p.1 = k := by simpa using hc
      simp only [List.map_cons, if_pos hc]
      rw [List.find?_cons_of_pos _ (by simpa using hc)]
      rw [hk]
    · simp only [List.map_cons, if_neg hc]
      rw [List.find?_cons_of_neg _ (by simpa using hc)]
      rw [List.find?_cons_of_neg _ (by simpa using hc)] at hp
      exact ih hp

theorem nget_nset_self {β : Type} (l : List (Nat × β)) (k : Nat) (v : β) :
    nget (nset l k v) k = some v := by
  unfold nset
  by_cases hp : (l.find? (fun p => p.1 == k)).isSome
  · rw [if_pos hp]
    unfold nget
    rw [find?_nset_of_pos k v l hp]
    rfl
  · rw [if_neg hp]
    have hn : l.find? (fun p => p.1 == k) = none := by
      cases hfind : l.find? (fun p => p.1 == k) with
      | none => rfl
      | some q => rw [hfind] at hp; simp at hp
    simp [nget, List.find?_append, hn]

theorem nset_length {β : Type} (l : List (Nat × β)) (k : Nat) (v : β) :
    (nset l k v).length =
      if (nget l k).isSome then l.length else l.length + 1 := by
  unfold nset nget
  by_cases hp : (l.find? (fun p => p.1 == k)).isSome <;>
    simp [hp]

theorem nsBroadcastGo_dests (st : NsState) :
    ∀ l, (∀ q ∈ l, (nsResolve st q.1).isSome) →
      (nsBroadcastGo st l).map (fun rp => rp.dest) = l.map (fun q => q.1) := by
  intro l
  induction l with
  | nil => intro _; rfl
  | cons q l ih =>
    intro h
    obtain ⟨p, addr⟩ := q
    obtain ⟨recs, hrecs⟩ := Option.isSome_iff_exists.mp
      (h (p, addr) (List.mem_cons_self _ _))
    rw [nsBroadcastGo, hrecs]
    simp only [List.map_cons]
    rw [ih (fun q hq => h q (List.mem_cons_of_mem _ hq))]

/-- Claim C8 (amended): one datagram step of the name service.  A
registration from an already-known peer keeps the distinct-peer count
(a fresh peer increments it); the peer's connect buffer and source
address are overwritten while its bind records are merged per connecting
peer on top of the old ones; no reply is sent while the count differs
from the declared `peers`; whenever the count equals `peers` after a
datagram — including after a duplicate arriving once replies were
already sent — a reply goes to every registered peer (provided every
connect placeholder resolves). -/
theorem nsStep_spec (st : NsState) (r : NsReg) :
    ((nget st.peer_map r.peer).isSome →
      (nsStep st r).1.peer_map.length = st.peer_map.length) ∧
    (nget st.peer_map r.peer = none →
      (nsStep st r).1.peer_map.length = st.peer_map.length + 1) ∧
    nget (nsStep st r).1.conn_map r.peer = some r.connects ∧
    nget (nsStep st r).1.peer_map r.peer = some (r.srcIp, r.srcPort) ∧
    nget (nsStep st r).1.bind_map r.peer =
      some (r.binds.foldl (fun m hp => nset m hp.1 hp.2)
        ((nget st.bind_map r.peer).getD [])) ∧
    ((nsStep st r).1.peer_map.length ≠ st.peers → (nsStep st r).2 = []) ∧
    ((nsStep st r).1.peer_map.length = st.peers →
      (∀ q ∈ (nsStep st r).1.peer_map, (nsResolve (nsStep st r).1 q.1).isSome) →
      (nsStep st r).2.map (fun rp => rp.dest) =
        (nsStep st r).1.peer_map.map (fun q => q.1)) := by
  set st1 : NsState :=
    { st with
      bind_map := nset st.bind_map r.peer
        (r.binds.foldl (fun m hp => nset m hp.1 hp.2)
          ((nget st.bind_map r.peer).getD [])),
      conn_map := nset st.conn_map r.peer r.connects,
      peer_map := nset st.peer_map r.peer (r.srcIp, r.srcPort) } with hst1
  have hstep : nsStep st r =
      if st1.peer_map.length = st.peers then (st1, nsBroadcast st1)
      else (st1, []) := rfl
  have h1 : (nsStep st r).1 = st1 := by
    rw [hstep]; split <;> rfl
  have h2 : (nsStep st r).2 =
      if st1.peer_map.length = st.peers then nsBroadcast st1 else [] := by
    rw [hstep]
    by_cases hcond : st1.peer_map.length = st.peers <;>
      simp [hcond]
  refine ⟨?_, ?_, ?_, ?_, ?_, ?_, ?_⟩
  · intro hs
    rw [h1, hst1]
    simp only [nset_length, hs, if_true]
  · intro hn
    rw [h1, hst1]
    simp only [nset_length, hn]
    simp
  · rw [h1, hst1]; exact nget_nset_self _ _ _
  · rw [h1, hst1]; exact nget_nset_self _ _ _
  · rw [h1, hst1]; exact nget_nset_self _ _ _
  · intro hne
    rw [h1] at hne
    rw [h2, if_neg hne]
  · intro heq hres
    rw [h1] at heq hres
    rw [h2, if_pos heq, h1]
    exact nsBroadcastGo_dests _ _ hres

/-- Claim C8 counterexample: with one declared peer, a duplicate
registration arriving after the reply broadcast triggers a second reply
to the same peer, so a peer is not answered exactly once; and a second
registration with a bind record for a new connecting peer merges into the
stored bind records instead of replacing them. -/
theorem ns_single_shot_cex :
    (nsRun { peers := 1 } [regDemo, regDemo]).2.map (fun rp => rp.dest) =
      [1, 1] ∧
    (nsRun { peers := 2 }
      [{ peer := 1, binds := [(2, 5)], srcIp := "h", srcPort := 1 },
       { peer := 1, binds := [(3, 7)], srcIp := "h", srcPort := 1 }]).1.bind_map =
      [(1, [(2, 5), (3, 7)])] := by
  exact ⟨by decide, by decide⟩

/-- Witness for the amended C8 theorem: a duplicate registration below
the declared peer count keeps the count and sends nothing. -/
theorem nsStep_spec_witness :
    (nsStep { peers := 2, peer_map := [(1, ("h", 5))] }
        { peer := 1, binds := [(2, 9)], srcIp := "g", srcPort := 6 }).1.peer_map.length =
      1 ∧
    (nsStep { peers := 2, peer_map := [(1, ("h", 5))] }
        { peer := 1, binds := [(2, 9)], srcIp := "g", srcPort := 6 }).2 = [] := by
  refine ⟨?_, ?_⟩
  · exact (nsStep_spec _ _).1 (by decide)
  · exact (nsStep_spec _ _).2.2.2.2.2.1 (by decide)

/-! ## Claim C5: connect-string rendering -/

theorem optMapM_some_map {α β : Type} {g : α → Option β} (d : β) :
    ∀ {l : List α} {r : List β}, optMapM g l = some r →
      r = l.map (fun a => (g a).getD d) := by
  intro l
  induction l with
  | nil => intro r h; cases h; rfl
  | cons a l ih =>
    intro r h
    rw [optMapM] at h
    cases hg : g a with
    | none => rw [hg] at h; cases h
    | some b =>
      rw [hg] at h
      cases hm : optMapM g l with
      | none => rw [hm] at h; cases h
      | some bs =>
        rw [hm] at h
        simp only [Option.map_some', Option.some.injEq] at h
        subst h
        simp only [List.map_cons]
        rw [hg]
        simp only [Option.getD_some]
        rw [← ih hm]

theorem protoField_port0 (id : Nat) (repl : Int) (N : Nat) :
    protoField id repl N "0" =
      String.intercalate ";" ((List.range repl.toNat).map
        (fun i => "tcp:" ++ toString (id + i * N) ++ ":0")) := by
  unfold protoField
  congr 1
  apply List.map_congr_left
  intro i _
  rw [String.append_assoc]
  rfl

theorem protoField_portEmpty (id : Nat) (repl : Int) (N : Nat) :
    protoField id repl N "" =
      String.intercalate ";" ((List.range repl.toNat).map
        (fun i => "tcp:" ++ toString (id + i * N) ++ ":")) := by
  unfold protoField
  congr 1
  apply List.map_congr_left
  intro i _
  rw [String.append_empty]

theorem renderBind_eq (cfg : ParserCfg) (N : Nat) (d : ZvmNode)
    (dev : String) :
    String.intercalate ","
      [protoField d.id d.replicate N "0", dev, "0,0", cfg.reads, cfg.rbytes,
       "0,0"] = specBindLine cfg N d dev := by
  rw [protoField_port0]
  unfold specBindLine
  simp [String.intercalate, String.intercalate.go, String.append_assoc]

theorem renderConnect_eq (cfg : ParserCfg) (N : Nat) (d : ZvmNode)
    (dev : String) :
    String.intercalate ","
      [protoField d.id d.replicate N "", dev, "0,0", "0,0", cfg.writes,
       cfg.wbytes] = specConnectLine cfg N d dev := by
  rw [protoField_portEmpty]
  unfold specConnectLine
  simp [String.intercalate, String.intercalate.go, String.append_assoc]

/-- Claim C5: `build_connect_string` renders every bind entry as the
semicolon-joined listening slots `tcp:<peer_id + i*total_node_count>:0`
(`i` ranging over the peer's replica count) followed by the device, the
`0,0` type flags and the configured read IOPS/byte caps, and every
connect entry the same way with an empty port and the write IOPS/byte
caps. -/
theorem buildConnectString_spec (cfg : ParserCfg) (st : Core)
    (node : ZvmNode) (bs cs : List String)
    (h : buildConnectString cfg st node = some (bs, cs)) :
    bs = node.bind.map (fun e =>
      match aget st.nodes e.1 with
      | some d => specBindLine cfg st.node_list.length d e.2
      | none => "") ∧
    cs = node.connect.map (fun e =>
      match aget st.nodes e.1 with
      | some d => specConnectLine cfg st.node_list.length d e.2
      | none => "") := by
  unfold buildConnectString at h
  by_cases he : st.nodes.isEmpty
  · rw [if_pos he] at h; cases h
  · rw [if_neg he] at h
    cases hb : optMapM (fun bd =>
        (aget st.nodes bd.1).map (fun d =>
          String.intercalate ","
            [protoField d.id d.replicate st.node_list.length "0",
             bd.2, "0,0", cfg.reads, cfg.rbytes, "0,0"])) node.bind with
    | none => rw [hb] at h; cases h
    | some bindStrs =>
      rw [hb] at h
      cases hcn : optMapM (fun bd =>
          (aget st.nodes bd.1).map (fun d =>
            String.intercalate ","
              [protoField d.id d.replicate st.node_list.length "",
               bd.2, "0,0", "0,0", cfg.writes, cfg.wbytes])) node.connect with
      | none => rw [hcn] at h; cases h
      | some connStrs =>
        rw [hcn] at h
        have hbs : bindStrs = bs ∧ connStrs = cs := by
          cases h; exact ⟨rfl, rfl⟩
        obtain ⟨hbs1, hbs2⟩ := hbs
        constructor
        · rw [← hbs1, optMapM_some_map "" hb]
          apply List.map_congr_left
          intro e _
          cases hag : aget st.nodes e.1 with
          | none => simp [hag]
          | some d => simp [hag, renderBind_eq]
        · rw [← hbs2, optMapM_some_map "" hcn]
          apply List.map_congr_left
          intro e _
          cases hag : aget st.nodes e.1 with
          | none => simp [hag]
          | some d => simp [hag, renderConnect_eq]

/-- Witness for the C5 theorem on the demo planner state. -/
theorem buildConnectString_spec_witness :
    ((buildConnectString cfgDemo stW nodeBW).getD ([], [])).1 =
      nodeBW.bind.map (fun e =>
        match aget stW.nodes e.1 with
        | some d => specBindLine cfgDemo stW.node_list.length d e.2
        | none => "") ∧
    ((buildConnectString cfgDemo stW nodeBW).getD ([], [])).2 =
      nodeBW.connect.map (fun e =>
        match aget stW.nodes e.1 with
        | some d => specConnectLine cfgDemo stW.node_list.length d e.2
        | none => "") :=
  buildConnectString_spec cfgDemo stW nodeBW _ _ rfl

/-! ## Claim C7: pathless write channels (immediate response) -/

/-- Claim C7: among the devices the device map classifies as pure
writable (no read or append bit, write bit set — `stdout`, `stderr` and
`output`), a write channel without a path passes the write phase exactly
for `stdout` and `stderr`; any other such device fails `parse` with the
immediate-response error, as the concrete `output` job shows. -/
theorem pathless_write_gate (d : String) (a : Nat)
    (hacc : aget DEVICE_MAP d = some a)
    (hr : a &&& ACCESS_READABLE = 0) (hcd : a &&& ACCESS_CDR = 0)
    (hw : a &&& ACCESS_WRITABLE ≠ 0)
    (zn : ZvmNode) (ncount : Nat) (rg : Bool) (st : Core) (c : ZvmChannel)
    (hdev : c.device = d) (hp : c.path = none) :
    ((d = "stdout" ∨ d = "stderr") →
      (writeStep zn ncount rg st c).isOk = true) ∧
    (¬(d = "stdout" ∨ d = "stderr") →
      writeStep zn ncount rg st c = .error (.config
        ("Immediate response is not available for device " ++ d))) ∧
    parse cfgDemo cbDemo {} jobOutputNoPath false none 1 = .error (.config
      "Immediate response is not available for device output") := by
  have hmem : (d, a) ∈ DEVICE_MAP := aget_mem hacc
  simp only [DEVICE_MAP, List.mem_cons, List.not_mem_nil, or_false,
    Prod.mk.injEq] at hmem
  have hgate : ∀ hcon : (!(strContains c.device "stdout") &&
      !(strContains c.device "stderr")) = false,
      (writeStep zn ncount rg st c).isOk = true := by
    intro hcon
    simp [writeStep, hp, hcon, Except.isOk, Except.toBool]
  have herr : ∀ hcon : (!(strContains c.device "stdout") &&
      !(strContains c.device "stderr")) = true,
      writeStep zn ncount rg st c = .error (.config
        ("Immediate response is not available for device " ++ c.device)) := by
    intro hcon
    simp [writeStep, hp, hcon]
  rcases hmem with ⟨hd, ha⟩ | ⟨hd, ha⟩ | ⟨hd, ha⟩ | ⟨hd, ha⟩ | ⟨hd, ha⟩ |
    ⟨hd, ha⟩ | ⟨hd, ha⟩ <;> subst hd <;> subst ha
  · exact absurd hr (by decide)
  · refine ⟨fun _ => hgate (by rw [hdev]; decide), fun hno => ?_, rfl⟩
    exact absurd (Or.inl rfl) hno
  · refine ⟨fun _ => hgate (by rw [hdev]; decide), fun hno => ?_, rfl⟩
    exact absurd (Or.inr rfl) hno
  · exact absurd hr (by decide)
  · refine ⟨fun hyes => ?_, fun _ => ?_, rfl⟩
    · rcases hyes with h | h <;> exact absurd h (by decide)
    · rw [herr (by rw [hdev]; decide), hdev]
  · exact absurd hw (by decide)
  · exact absurd hcd (by decide)

/-- Witness for the C7 theorem: `output` is rejected, `stdout` accepted. -/
theorem pathless_write_gate_witness :
    writeStep { id := 0, name := "a", exe := .raw "e" } 1 false {}
        { device := "output", access := some 6 } =
      .error (.config "Immediate response is not available for device output") ∧
    (writeStep { id := 0, name := "a", exe := .raw "e" } 1 false {}
        { device := "stdout", access := some 2 }).isOk = true := by
  constructor
  · exact (pathless_write_gate "output" 6 rfl (by decide) (by decide)
      (by decide) _ 1 false {} _ rfl rfl).2.1 (by decide)
  · exact (pathless_write_gate "stdout" 2 rfl (by decide) (by decide)
      (by decide) _ 1 false {} _ rfl rfl).1 (Or.inl rfl)

/-! ## Planner invariant machinery (claims C1 and C2) -/

theorem mem_aupd_of_mem_eq {β : Type} {l : List (String × β)} {k : String}
    {f : β → β} {q : String × β} (hq : q ∈ l) (hk : q.1 = k) :
    (q.1, f q.2) ∈ aupd l k f := by
  simp only [aupd, List.mem_map]
  exact ⟨q, hq, by rw [if_pos (beq_iff_eq.mpr hk)]⟩

theorem mem_aupd_of_mem_ne {β : Type} {l : List (String × β)} {k : String}
    {f : β → β} {q : String × β} (hq : q ∈ l) (hk : q.1 ≠ k) :
    q ∈ aupd l k f := by
  simp only [aupd, List.mem_map]
  exact ⟨q, hq, by rw [if_neg (by simpa using hk)]⟩

theorem aget_isSome_iff_keys {β : Type} (l : List (String × β)) (k : String) :
    (aget l k).isSome ↔ k ∈ l.map (·.1) := by
  constructor
  · intro hs
    obtain ⟨v, hv⟩ := Option.isSome_iff_exists.mp hs
    exact List.mem_map.mpr ⟨(k, v), aget_mem hv, rfl⟩
  · intro hm
    obtain ⟨p, hp, hpk⟩ := List.mem_map.mp hm
    have := aget_isSome_of_mem hp
    rwa [hpk] at this

theorem keysNamed_aupd {l : List (String × ZvmNode)} {k : String}
    {f : ZvmNode → ZvmNode} (hf : ∀ n, (f n).name = n.name)
    (h : KeysNamed l) : KeysNamed (aupd l k f) := by
  intro p hp
  obtain ⟨q, hq, hfst, hsnd⟩ := mem_aupd hp
  rcases hsnd with h2 | h2
  · rw [h2, hfst]; exact h q hq
  · rw [h2, hf, hfst]; exact h q hq

theorem coreIds_aupd {st : Core} {k : String} {f : ZvmNode → ZvmNode}
    (hf : ∀ n, (f n).id = n.id) (h : CoreIds st) :
    CoreIds { st with nodes := aupd st.nodes k f } := by
  obtain ⟨h1, h2⟩ := h
  constructor
  · show (aupd st.nodes k f).map (fun p => p.2.id) =
      List.range' 1 (aupd st.nodes k f).length
    rw [aupd_map_id _ _ _ hf, aupd_length]
    exact h1
  · show st.node_id = (aupd st.nodes k f).length + 1
    rw [aupd_length]
    exact h2

theorem coreNames_aupd {st : Core} {k : String} {f : ZvmNode → ZvmNode}
    (hf : ∀ n, (f n).name = n.name) (h : CoreNames st) :
    CoreNames { st with nodes := aupd st.nodes k f } := by
  obtain ⟨h1, h2⟩ := h
  constructor
  · show ((aupd st.nodes k f).map (·.1)).Nodup
    rw [aupd_map_fst]
    exact h1
  · exact keysNamed_aupd hf h2

theorem sym_aupd {l : List (String × ZvmNode)} {k : String}
    {f : ZvmNode → ZvmNode} (hb : ∀ n, (f n).bind = n.bind)
    (hc : ∀ n, (f n).connect = n.connect) (h : Sym l) : Sym (aupd l k f) := by
  have variant : ∀ p ∈ aupd l k f, ∃ q ∈ l, p.1 = q.1 ∧
      p.2.bind = q.2.bind ∧ p.2.connect = q.2.connect := by
    intro p hp
    obtain ⟨q, hq, hfst, hsnd⟩ := mem_aupd hp
    rcases hsnd with h2 | h2
    · exact ⟨q, hq, hfst, by rw [h2], by rw [h2]⟩
    · exact ⟨q, hq, hfst, by rw [h2, hb], by rw [h2, hc]⟩
  have variant2 : ∀ q ∈ l, ∃ p ∈ aupd l k f, p.1 = q.1 ∧
      p.2.bind = q.2.bind ∧ p.2.connect = q.2.connect := by
    intro q hq
    obtain ⟨p, hp, hfst, hsnd⟩ := mem_aupd_of_mem hq
    rcases hsnd with h2 | h2
    · exact ⟨p, hp, hfst, by rw [h2], by rw [h2]⟩
    · exact ⟨p, hp, hfst, by rw [h2, hb], by rw [h2, hc]⟩
  constructor
  · intro p hp e he
    obtain ⟨q, hq, hfst, hbq, hcq⟩ := variant p hp
    rw [hcq] at he
    obtain ⟨hne, r, hr, hr1, dd, hd⟩ := h.1 q hq e he
    obtain ⟨r', hr', hrf, hrb, _⟩ := variant2 r hr
    refine ⟨by rw [hfst]; exact hne, r', hr', by rw [hrf]; exact hr1, dd, ?_⟩
    rw [hrb, hfst]
    exact hd
  · intro p hp e he
    obtain ⟨q, hq, hfst, hbq, hcq⟩ := variant p hp
    rw [hbq] at he
    obtain ⟨hne, r, hr, hr1, dd, hd⟩ := h.2 q hq e he
    obtain ⟨r', hr', hrf, _, hrc⟩ := variant2 r hr
    refine ⟨by rw [hfst]; exact hne, r', hr', by rw [hrf]; exact hr1, dd, ?_⟩
    rw [hrc, hfst]
    exact hd

theorem inv_aupd {st : Core} {k : String} {f : ZvmNode → ZvmNode}
    (hname : ∀ n, (f n).name = n.name) (hid : ∀ n, (f n).id = n.id)
    (hb : ∀ n, (f n).bind = n.bind) (hc : ∀ n, (f n).connect = n.connect)
    (h : Inv st) : Inv { st with nodes := aupd st.nodes k f } :=
  ⟨coreIds_aupd hid h.1, coreNames_aupd hname h.2.1, sym_aupd hb hc h.2.2⟩

theorem inv_append_node {st : Core} {nm : String} {zn : ZvmNode}
    (hg : aget st.nodes nm = none) (hzb : zn.bind = []) (hzc : zn.connect = [])
    (h : Inv st) :
    Inv ⟨st.nodes ++ [(nm, zn.copy st.node_id nm)], st.node_id + 1,
      st.node_list⟩ := by
  obtain ⟨⟨hid, hnid⟩, ⟨hnodup, hnamed⟩, hsym⟩ := h
  have hcid : (zn.copy st.node_id nm).id = st.node_id := rfl
  have hcname : (zn.copy st.node_id nm).name = nm := rfl
  have hcbind : (zn.copy st.node_id nm).bind = [] := hzb
  have hcconn : (zn.copy st.node_id nm).connect = [] := hzc
  refine ⟨⟨?_, ?_⟩, ⟨?_, ?_⟩, ?_, ?_⟩
  · show (st.nodes ++ [(nm, zn.copy st.node_id nm)]).map (fun p => p.2.id) =
      List.range' 1 (st.nodes ++ [(nm, zn.copy st.node_id nm)]).length
    rw [List.map_append, List.length_append, hid]
    show List.range' 1 st.nodes.length ++ [(zn.copy st.node_id nm).id] = _
    rw [hcid, hnid]
    simp only [List.length_singleton]
    rw [List.range'_concat]
    simp [Nat.add_comm]
  · show st.node_id + 1 =
      (st.nodes ++ [(nm, zn.copy st.node_id nm)]).length + 1
    rw [List.length_append, hnid]
    simp
  · show ((st.nodes ++ [(nm, zn.copy st.node_id nm)]).map (·.1)).Nodup
    rw [List.map_append]
    refine List.Nodup.append hnodup (by simp) ?_
    intro x hx hx2
    simp only [List.map_cons, List.map_nil, List.mem_singleton] at hx2
    subst hx2
    obtain ⟨p, hp, hpk⟩ := List.mem_map.mp hx
    exact aget_none hg p hp hpk
  · intro p hp
    rcases List.mem_append.mp hp with h1 | h1
    · exact hnamed p h1
    · simp only [List.mem_singleton] at h1
      subst h1
      exact hcname
  · intro p hp e he
    rcases List.mem_append.mp hp with h1 | h1
    · obtain ⟨hne, r, hr, hr1, dd, hd⟩ := hsym.1 p h1 e he
      exact ⟨hne, r, List.mem_append_left _ hr, hr1, dd, hd⟩
    · simp only [List.mem_singleton] at h1
      subst h1
      rw [hcconn] at he
      cases he
  · intro p hp e he
    rcases List.mem_append.mp hp with h1 | h1
    · obtain ⟨hne, r, hr, hr1, dd, hd⟩ := hsym.2 p h1 e he
      exact ⟨hne, r, List.mem_append_left _ hr, hr1, dd, hd⟩
    · simp only [List.mem_singleton] at h1
      subst h1
      rw [hcbind] at he
      cases he

theorem inv_getNewNode {st : Core} {zn : ZvmNode} {i : Nat}
    (hzb : zn.bind = []) (hzc : zn.connect = []) (h : Inv st) :
    Inv (getNewNode st zn i).1 := by
  simp only [getNewNode]
  cases hg : aget st.nodes (if i = 0 then zn.name else mkName zn.name i) with
  | some v => exact h
  | none => exact inv_append_node hg hzb hzc h

theorem inv_addNewChannel {st : Core} {zn : ZvmNode} {c : ZvmChannel}
    {i : Nat} {p : Option Location} {ct : Option String}
    (hzb : zn.bind = []) (hzc : zn.connect = []) (h : Inv st) :
    Inv (addNewChannel st zn c i p ct).1 := by
  unfold addNewChannel
  exact inv_aupd (fun n => rfl) (fun n => rfl) (fun n => rfl) (fun n => rfl)
    (inv_getNewNode hzb hzc h)

theorem createNode_shape {nc : NodeConfig} {zn : ZvmNode}
    (h : createNode nc = .ok zn) :
    zn.bind = [] ∧ zn.connect = [] ∧ zn.channels = [] := by
  simp only [createNode] at h
  repeat' split at h
  all_goals try cases h
  exact ⟨rfl, rfl, rfl⟩

theorem inv_readStep {cb : Callbacks} {zn : ZvmNode}
    (hzb : zn.bind = []) (hzc : zn.connect = []) (rw : RW) (c : ZvmChannel)
    (rw' : RW) (hi : Inv rw.st) (h : readStep cb zn rw c = .ok rw') :
    Inv rw'.st := by
  unfold readStep at h
  split at h
  · cases h
  · split at h
    · split at h
      · cases h
      · cases h
        refine foldl_inv ?_ _ _ hi
        intro s io hs
        exact inv_aupd (fun n => rfl) (fun n => rfl) (fun n => rfl)
          (fun n => rfl) (inv_addNewChannel hzb hzc hs)
    · cases h
      refine foldl_inv ?_ _ _ hi
      intro s i hs
      exact inv_addNewChannel hzb hzc hs

theorem inv_writeStep {zn : ZvmNode} {ncount : Nat} {rg : Bool}
    (hzb : zn.bind = []) (hzc : zn.connect = []) (st : Core) (c : ZvmChannel)
    (st' : Core) (hi : Inv st) (h : writeStep zn ncount rg st c = .ok st') :
    Inv st' := by
  unfold writeStep at h
  split at h
  · split at h
    · split at h
      · refine foldE_ok_inv ?_ _ _ _ hi h
        intro s i s1 hs hstep
        split at hstep
        · cases hstep
        · split at hstep
          · cases hstep
          · cases hstep
            exact inv_aupd (fun n => rfl) (fun n => rfl) (fun n => rfl)
              (fun n => rfl) hs
      · cases h
        refine foldl_inv ?_ _ _ hi
        intro s i hs
        exact inv_aupd (fun n => rfl) (fun n => rfl) (fun n => rfl)
          (fun n => rfl) (inv_addNewChannel hzb hzc hs)
    · split at h
      · cases h
      · cases h
        exact inv_addNewChannel hzb hzc hi
  · split at h
    · cases h
    · cases h
      refine foldl_inv ?_ _ _ hi
      intro s i hs
      exact inv_addNewChannel hzb hzc hs

theorem inv_otherStep {cfg : ParserCfg} {zn : ZvmNode} {ncount : Nat}
    (hzb : zn.bind = []) (hzc : zn.connect = []) (st : Core) (c : ZvmChannel)
    (st' : Core) (hi : Inv st) (h : otherStep cfg zn ncount st c = .ok st') :
    Inv st' := by
  simp only [otherStep] at h
  repeat' split at h
  all_goals cases h
  all_goals refine foldl_inv ?_ _ _ hi
  all_goals intro s i hs
  all_goals exact inv_addNewChannel hzb hzc hs

theorem inv_processNode {cfg : ParserCfg} {cb : Callbacks}
    (acc : Core × CDs) (nc : NodeConfig) (acc' : Core × CDs)
    (hi : Inv acc.1) (h : processNode cfg cb acc nc = .ok acc') :
    Inv acc'.1 := by
  simp only [processNode] at h
  cases hzn : createNode nc with
  | error e => rw [hzn] at h; cases h
  | ok zn =>
    rw [hzn] at h
    dsimp only at h
    obtain ⟨hzb, hzc, _⟩ := createNode_shape hzn
    by_cases hcnt : (nc.count.getD 1 : Int) > 0
    · rw [if_pos hcnt] at h
      by_cases hfl : nc.file_list.isEmpty
      · rw [if_pos hfl] at h
        cases h
        exact hi
      · rw [if_neg hfl] at h
        cases hpart : foldE (classifyStep cfg zn)
            { cds := acc.2, read_list := [], write_list := [],
              other_list := [] } nc.file_list with
        | error e => rw [hpart] at h; cases h
        | ok part =>
          rw [hpart] at h
          dsimp only at h
          cases hrw : foldE (readStep cb zn)
              { st := acc.1, node_count := (nc.count.getD 1).toNat,
                read_group := false } part.read_list with
          | error e => rw [hrw] at h; cases h
          | ok rw1 =>
            rw [hrw] at h
            dsimp only at h
            cases hw : foldE (writeStep zn rw1.node_count rw1.read_group)
                rw1.st part.write_list with
            | error e => rw [hw] at h; cases h
            | ok st2 =>
              rw [hw] at h
              dsimp only at h
              cases ho : foldE (otherStep cfg zn rw1.node_count) st2
                  part.other_list with
              | error e => rw [ho] at h; cases h
              | ok st3 =>
                rw [ho] at h
                dsimp only at h
                cases h
                have h1 : Inv rw1.st := foldE_ok_inv
                  (fun s a s1 hs hstep => inv_readStep hzb hzc s a s1 hs hstep)
                  _ _ _ hi hrw
                have h2 : Inv st2 := foldE_ok_inv
                  (fun s a s1 hs hstep => inv_writeStep hzb hzc s a s1 hs hstep)
                  _ _ _ h1 hw
                exact foldE_ok_inv
                  (fun s a s1 hs hstep => inv_otherStep hzb hzc s a s1 hs hstep)
                  _ _ _ h2 ho
    · rw [if_neg hcnt] at h
      cases h

/-! ## Wiring-phase invariants -/

theorem mem_aupd_image {β : Type} {l : List (String × β)} {k : String}
    {f : β → β} {q : String × β} (hq : q ∈ l) :
    (if q.1 == k then (q.1, f q.2) else q) ∈ aupd l k f :=
  List.mem_map_of_mem _ hq

theorem mem_aupd2 {l : List (String × ZvmNode)} {k1 k2 : String}
    {f1 f2 : ZvmNode → ZvmNode} {p : String × ZvmNode}
    (h : p ∈ aupd (aupd l k1 f1) k2 f2) :
    ∃ q ∈ l, p =
      (fun r => if r.1 == k2 then (r.1, f2 r.2) else r)
        ((fun r => if r.1 == k1 then (r.1, f1 r.2) else r) q) := by
  simp only [aupd, List.map_map, List.mem_map] at h
  obtain ⟨q, hq, he⟩ := h
  exact ⟨q, hq, he.symm⟩

/-- Membership shape of the paired update: each entry of the double
`aupd` is the old entry, its `f1` image (at key `k1`) or its `f2` image
(at key `k2`). -/
theorem aupd2_shape {l : List (String × ZvmNode)} {k1 k2 : String}
    (hk : k1 ≠ k2) {f1 f2 : ZvmNode → ZvmNode} {p : String × ZvmNode}
    (h : p ∈ aupd (aupd l k1 f1) k2 f2) :
    ∃ q ∈ l, p.1 = q.1 ∧
      ((q.1 = k1 ∧ p.2 = f1 q.2) ∨ (q.1 = k2 ∧ p.2 = f2 q.2) ∨
        (q.1 ≠ k1 ∧ q.1 ≠ k2 ∧ p.2 = q.2)) := by
  obtain ⟨q, hq, hpe⟩ := mem_aupd2 h
  dsimp only at hpe
  by_cases hc1 : q.1 = k1
  · have hc1t : (q.1 == k1) = true := beq_iff_eq.mpr hc1
    rw [if_pos hc1t] at hpe
    have houter : ¬(((q.1, f1 q.2).1 == k2) = true) := by
      simpa [hc1] using hk
    rw [if_neg houter] at hpe
    exact ⟨q, hq, by rw [hpe], Or.inl ⟨hc1, by rw [hpe]⟩⟩
  · have hc1f : ¬((q.1 == k1) = true) := by simpa using hc1
    rw [if_neg hc1f] at hpe
    by_cases hc2 : q.1 = k2
    · have hc2t : (q.1 == k2) = true := beq_iff_eq.mpr hc2
      rw [if_pos hc2t] at hpe
      exact ⟨q, hq, by rw [hpe], Or.inr (Or.inl ⟨hc2, by rw [hpe]⟩)⟩
    · have hc2f : ¬((q.1 == k2) = true) := by simpa using hc2
      rw [if_neg hc2f] at hpe
      exact ⟨q, hq, by rw [hpe], Or.inr (Or.inr ⟨hc1, hc2, by rw [hpe]⟩)⟩

/-- The paired append of one bind entry on the node at `bk` and one
connect entry on the node at `ck` preserves connection symmetry. -/
theorem sym_add_pair {l : List (String × ZvmNode)} {bk ck bdev cdev : String}
    (hne : bk ≠ ck) (hbmem : (aget l bk).isSome) (hcmem : (aget l ck).isSome)
    (hsym : Sym l) :
    Sym (aupd (aupd l bk (fun n => { n with bind := n.bind ++ [(ck, bdev)] }))
      ck (fun n => { n with connect := n.connect ++ [(bk, cdev)] })) := by
  obtain ⟨bn, hbn⟩ := Option.isSome_iff_exists.mp hbmem
  obtain ⟨cn, hcn⟩ := Option.isSome_iff_exists.mp hcmem
  have himg : ∀ q ∈ l,
      ∃ r' ∈ aupd (aupd l bk
          (fun n => { n with bind := n.bind ++ [(ck, bdev)] })) ck
          (fun n => { n with connect := n.connect ++ [(bk, cdev)] }),
        r'.1 = q.1 ∧ (∀ x ∈ q.2.bind, x ∈ r'.2.bind) ∧
        (∀ x ∈ q.2.connect, x ∈ r'.2.connect) := by
    intro q hq
    have h1 := mem_aupd_image
      (k := bk) (f := fun n => { n with bind := n.bind ++ [(ck, bdev)] }) hq
    have h2 := mem_aupd_image
      (k := ck) (f := fun n => { n with connect := n.connect ++ [(bk, cdev)] }) h1
    refine ⟨_, h2, ?_, ?_, ?_⟩
    · by_cases hc1 : q.1 == bk <;> by_cases hc2 : q.1 == ck <;>
        simp [hc1, hc2]
    · intro x hx
      by_cases hc1 : q.1 == bk <;> by_cases hc2 : q.1 == ck <;>
        simp [hc1, hc2, List.mem_append, hx]
    · intro x hx
      by_cases hc1 : q.1 == bk <;> by_cases hc2 : q.1 == ck <;>
        simp [hc1, hc2, List.mem_append, hx]
  have hbimg : ((bk : String),
      (fun n => { n with bind := n.bind ++ [(ck, bdev)] }) bn) ∈
      aupd (aupd l bk (fun n => { n with bind := n.bind ++ [(ck, bdev)] })) ck
        (fun n => { n with connect := n.connect ++ [(bk, cdev)] }) := by
    have h1 : ((bk : String),
        (fun n => { n with bind := n.bind ++ [(ck, bdev)] }) bn) ∈
        aupd l bk (fun n => { n with bind := n.bind ++ [(ck, bdev)] }) := by
      simpa using mem_aupd_image
        (k := bk) (f := fun n => { n with bind := n.bind ++ [(ck, bdev)] })
        (aget_mem hbn)
    simpa [hne] using mem_aupd_image
      (k := ck) (f := fun n => { n with connect := n.connect ++ [(bk, cdev)] }) h1
  have hcimg : ((ck : String),
      (fun n => { n with connect := n.connect ++ [(bk, cdev)] }) cn) ∈
      aupd (aupd l bk (fun n => { n with bind := n.bind ++ [(ck, bdev)] })) ck
        (fun n => { n with connect := n.connect ++ [(bk, cdev)] }) := by
    have h1 : ((ck : String), cn) ∈
        aupd l bk (fun n => { n with bind := n.bind ++ [(ck, bdev)] }) := by
      simpa [Ne.symm hne] using mem_aupd_image
        (k := bk) (f := fun n => { n with bind := n.bind ++ [(ck, bdev)] })
        (aget_mem hcn)
    simpa using mem_aupd_image
      (k := ck) (f := fun n => { n with connect := n.connect ++ [(bk, cdev)] }) h1
  constructor
  · intro p hp e he
    obtain ⟨q, hq, hpq, hdisj⟩ := aupd2_shape hne hp
    rcases hdisj with ⟨hqk, hpv⟩ | ⟨hqk, hpv⟩ | ⟨_, _, hpv⟩
    · rw [hpv] at he
      dsimp only at he
      obtain ⟨hne_e, r, hr, hr1, dd, hd⟩ := hsym.1 q hq e he
      obtain ⟨r', hr', hrf, hrb, _⟩ := himg r hr
      refine ⟨by rw [hpq]; exact hne_e, r', hr',
        by rw [hrf]; exact hr1, dd, by rw [hpq]; exact hrb _ hd⟩
    · rw [hpv] at he
      dsimp only at he
      rcases List.mem_append.mp he with he1 | he1
      · obtain ⟨hne_e, r, hr, hr1, dd, hd⟩ := hsym.1 q hq e he1
        obtain ⟨r', hr', hrf, hrb, _⟩ := himg r hr
        refine ⟨by rw [hpq]; exact hne_e, r', hr',
          by rw [hrf]; exact hr1, dd, by rw [hpq]; exact hrb _ hd⟩
      · simp only [List.mem_singleton] at he1
        subst he1
        refine ⟨by rw [hpq, hqk]; simpa using hne, ?_⟩
        refine ⟨_, hbimg, rfl, bdev, ?_⟩
        rw [hpq, hqk]
        simp
    · rw [hpv] at he
      obtain ⟨hne_e, r, hr, hr1, dd, hd⟩ := hsym.1 q hq e he
      obtain ⟨r', hr', hrf, hrb, _⟩ := himg r hr
      refine ⟨by rw [hpq]; exact hne_e, r', hr',
        by rw [hrf]; exact hr1, dd, by rw [hpq]; exact hrb _ hd⟩
  · intro p hp e he
    obtain ⟨q, hq, hpq, hdisj⟩ := aupd2_shape hne hp
    rcases hdisj with ⟨hqk, hpv⟩ | ⟨hqk, hpv⟩ | ⟨_, _, hpv⟩
    · rw [hpv] at he
      dsimp only at he
      rcases List.mem_append.mp he with he1 | he1
      · obtain ⟨hne_e, r, hr, hr1, dd, hd⟩ := hsym.2 q hq e he1
        obtain ⟨r', hr', hrf, _, hrc⟩ := himg r hr
        refine ⟨by rw [hpq]; exact hne_e, r', hr',
          by rw [hrf]; exact hr1, dd, by rw [hpq]; exact hrc _ hd⟩
      · simp only [List.mem_singleton] at he1
        subst he1
        refine ⟨by rw [hpq, hqk]; simpa using Ne.symm hne, ?_⟩
        refine ⟨_, hcimg, rfl, cdev, ?_⟩
        rw [hpq, hqk]
        simp
    · rw [hpv] at he
      dsimp only at he
      obtain ⟨hne_e, r, hr, hr1, dd, hd⟩ := hsym.2 q hq e he
      obtain ⟨r', hr', hrf, _, hrc⟩ := himg r hr
      refine ⟨by rw [hpq]; exact hne_e, r', hr',
        by rw [hrf]; exact hr1, dd, by rw [hpq]; exact hrc _ hd⟩
    · rw [hpv] at he
      obtain ⟨hne_e, r, hr, hr1, dd, hd⟩ := hsym.2 q hq e he
      obtain ⟨r', hr', hrf, _, hrc⟩ := himg r hr
      refine ⟨by rw [hpq]; exact hne_e, r', hr',
        by rw [hrf]; exact hr1, dd, by rw [hpq]; exact hrc _ hd⟩

/-- The double update appending a matching bind/connect pair preserves
the whole invariant and the key set. -/
theorem inv_add_pair_upd {st : Core} {bk ck bdev cdev : String}
    (hne : bk ≠ ck) (hb : (aget st.nodes bk).isSome)
    (hc : (aget st.nodes ck).isSome) (hi : Inv st) :
    Inv ⟨aupd (aupd st.nodes bk
          (fun n => { n with bind := n.bind ++ [(ck, bdev)] }))
        ck (fun n => { n with connect := n.connect ++ [(bk, cdev)] }),
      st.node_id, st.node_list⟩ ∧
    (aupd (aupd st.nodes bk
          (fun n => { n with bind := n.bind ++ [(ck, bdev)] }))
        ck (fun n => { n with connect := n.connect ++ [(bk, cdev)] })).map
      (·.1) = st.nodes.map (·.1) := by
  have hid1 : ∀ n : ZvmNode,
      ({ n with bind := n.bind ++ [(ck, bdev)] } : ZvmNode).id = n.id :=
    fun n => rfl
  have hid2 : ∀ n : ZvmNode,
      ({ n with connect := n.connect ++ [(bk, cdev)] } : ZvmNode).id = n.id :=
    fun n => rfl
  have hnm1 : ∀ n : ZvmNode,
      ({ n with bind := n.bind ++ [(ck, bdev)] } : ZvmNode).name = n.name :=
    fun n => rfl
  have hnm2 : ∀ n : ZvmNode,
      ({ n with connect := n.connect ++ [(bk, cdev)] } :
        ZvmNode).name = n.name :=
    fun n => rfl
  refine ⟨⟨?_, ?_, ?_⟩, ?_⟩
  · exact coreIds_aupd hid2 (coreIds_aupd hid1 hi.1)
  · exact coreNames_aupd hnm2 (coreNames_aupd hnm1 hi.2.1)
  · exact sym_add_pair hne hb hc hi.2.2
  · rw [aupd_map_fst, aupd_map_fst]

/-- One replicated-group wiring step preserves the invariant, the key
set, the id counter and the node list. -/
theorem inv_addGroupConnection {st : Core} {nodeName bind_name dstd : String}
    {node : ZvmNode} (hnm : node.name = nodeName)
    (hnN : nodeName ∈ st.nodes.map (·.1))
    {a a' : Core × Option String} {i : Nat}
    (ha : Inv a.1 ∧ a.1.nodes.map (·.1) = st.nodes.map (·.1) ∧
      a.1.node_id = st.node_id ∧ a.1.node_list = st.node_list)
    (h : addGroupConnection nodeName bind_name node dstd a i = .ok a') :
    Inv a'.1 ∧ a'.1.nodes.map (·.1) = st.nodes.map (·.1) ∧
      a'.1.node_id = st.node_id ∧ a'.1.node_list = st.node_list := by
  obtain ⟨hai, hak, haid, hal⟩ := ha
  simp only [addGroupConnection, hnm] at h
  cases hgk : aget a.1.nodes (mkName bind_name i) with
  | none =>
    rw [hgk] at h
    cases h
    exact ⟨hai, hak, haid, hal⟩
  | some bnode =>
    rw [hgk] at h
    dsimp only at h
    by_cases hke : (mkName bind_name i == nodeName) = true
    · rw [if_pos hke] at h
      cases h
      exact ⟨hai, hak, haid, hal⟩
    · rw [if_neg hke] at h
      have hne : mkName bind_name i ≠ nodeName := by simpa using hke
      have hb : (aget a.1.nodes (mkName bind_name i)).isSome := by
        rw [hgk]; rfl
      have hc : (aget a.1.nodes nodeName).isSome := by
        rw [aget_isSome_iff_keys, hak]; exact hnN
      by_cases hfs : optFalsy a.2 = true
      · rw [if_pos hfs] at h
        cases h
        exact ⟨(inv_add_pair_upd hne hb hc hai).1,
          (inv_add_pair_upd hne hb hc hai).2.trans hak, haid, hal⟩
      · rw [if_neg hfs] at h
        cases hrw : resolveWildcards bnode (a.2.getD "") with
        | error e => rw [hrw] at h; cases h
        | ok srcr =>
          rw [hrw] at h
          dsimp only at h
          cases h
          exact ⟨(inv_add_pair_upd hne hb hc hai).1,
            (inv_add_pair_upd hne hb hc hai).2.trans hak, haid, hal⟩

/-- A successful `_add_connection` preserves the invariant, the key set,
the id counter and the node list. -/
theorem inv_addConnection {st st' : Core} {nodeName bind_name : String}
    {src dst : Option String}
    (h : addConnection st nodeName bind_name src dst = .ok st')
    (hi : Inv st) :
    Inv st' ∧ st'.nodes.map (·.1) = st.nodes.map (·.1) ∧
      st'.node_id = st.node_id ∧ st'.node_list = st.node_list := by
  simp only [addConnection] at h
  cases hgn : aget st.nodes nodeName with
  | none => rw [hgn] at h; cases h
  | some node =>
    rw [hgn] at h
    dsimp only at h
    have hnm : node.name = nodeName := hi.2.1.2 _ (aget_mem hgn)
    have hnN : nodeName ∈ st.nodes.map (·.1) :=
      List.mem_map.mpr ⟨(nodeName, node), aget_mem hgn, rfl⟩
    cases hdd : (if optFalsy dst then Except.ok ("/dev/in/" ++ node.name)
        else resolveWildcards node (dst.getD "")) with
    | error e => rw [hdd] at h; cases h
    | ok dstd =>
      rw [hdd] at h
      dsimp only at h
      simp only [addConnectionResolved, hnm] at h
      cases hgb : aget st.nodes bind_name with
      | some bind_node =>
        rw [hgb] at h
        dsimp only at h
        by_cases hbe : (bind_name == nodeName) = true
        · rw [if_pos hbe] at h; cases h
        · rw [if_neg hbe] at h
          have hne : bind_name ≠ nodeName := by simpa using hbe
          have hb : (aget st.nodes bind_name).isSome := by rw [hgb]; rfl
          have hc : (aget st.nodes nodeName).isSome := by rw [hgn]; rfl
          by_cases hfs : optFalsy src = true
          · rw [if_pos hfs] at h
            cases h
            exact ⟨(inv_add_pair_upd hne hb hc hi).1,
              (inv_add_pair_upd hne hb hc hi).2, rfl, rfl⟩
          · rw [if_neg hfs] at h
            cases hrw : resolveWildcards bind_node (src.getD "") with
            | error e => rw [hrw] at h; cases h
            | ok srcr =>
              rw [hrw] at h
              dsimp only at h
              cases h
              exact ⟨(inv_add_pair_upd hne hb hc hi).1,
                (inv_add_pair_upd hne hb hc hi).2, rfl, rfl⟩
      | none =>
        rw [hgb] at h
        dsimp only at h
        by_cases hg1 : (aget st.nodes (mkName bind_name 1)).isSome = true
        · rw [if_pos hg1] at h
          cases hfold : foldE (addGroupConnection nodeName bind_name node dstd)
              (st, src) (groupIdx st.nodes bind_name) with
          | error e => rw [hfold] at h; cases h
          | ok a =>
            rw [hfold] at h
            dsimp only at h
            cases h
            exact foldE_ok_inv
              (fun s i s1 hs hstep =>
                inv_addGroupConnection hnm hnN hs hstep)
              _ _ _ ⟨hi, rfl, rfl, rfl⟩ hfold
        · rw [if_neg hg1] at h
          cases h

/-- A successful `_add_all_connections` preserves the invariant, the key
set, the id counter and the node list. -/
theorem inv_addAllConnections {st st' : Core} {node_name : String}
    {conns : List String}
    {srcs : Option (List (String × (String × String)))}
    (h : addAllConnections st node_name conns srcs = .ok st')
    (hi : Inv st) :
    Inv st' ∧ st'.nodes.map (·.1) = st.nodes.map (·.1) ∧
      st'.node_id = st.node_id ∧ st'.node_list = st.node_list := by
  have hstep1 : ∀ (nm : String) (s : Core) (bn : String) (s1 : Core),
      (Inv s ∧ s.nodes.map (·.1) = st.nodes.map (·.1) ∧
        s.node_id = st.node_id ∧ s.node_list = st.node_list) →
      ∀ {sv dv : Option String}, addConnection s nm bn sv dv = .ok s1 →
      Inv s1 ∧ s1.nodes.map (·.1) = st.nodes.map (·.1) ∧
        s1.node_id = st.node_id ∧ s1.node_list = st.node_list := by
    intro nm s bn s1 hs sv dv hstep
    obtain ⟨hsi, hsk, hsd, hsl⟩ := hs
    obtain ⟨ha, hbq, hcq, hdq⟩ := inv_addConnection hstep hsi
    exact ⟨ha, hbq.trans hsk, hcq.trans hsd, hdq.trans hsl⟩
  simp only [addAllConnections] at h
  by_cases h1 : (aget st.nodes node_name).isSome = true
  · rw [if_pos h1] at h
    exact @foldE_ok_inv _ _ _
      (fun s => Inv s ∧ s.nodes.map (·.1) = st.nodes.map (·.1) ∧
        s.node_id = st.node_id ∧ s.node_list = st.node_list)
      (fun s bn s1 hs hstep => hstep1 node_name s bn s1 hs hstep)
      _ _ _ ⟨hi, rfl, rfl, rfl⟩ h
  · rw [if_neg h1] at h
    by_cases h2 : (aget st.nodes (mkName node_name 1)).isSome = true
    · rw [if_pos h2] at h
      refine @foldE_ok_inv _ _ _
        (fun s => Inv s ∧ s.nodes.map (·.1) = st.nodes.map (·.1) ∧
          s.node_id = st.node_id ∧ s.node_list = st.node_list)
        ?_ _ _ _ ⟨hi, rfl, rfl, rfl⟩ h
      intro s j s1 hs hstep
      exact @foldE_ok_inv _ _ _
        (fun s2 => Inv s2 ∧ s2.nodes.map (·.1) = st.nodes.map (·.1) ∧
          s2.node_id = st.node_id ∧ s2.node_list = st.node_list)
        (fun s2 bn s2' hs2 hstep2 =>
          hstep1 (mkName node_name j) s2 bn s2' hs2 hstep2)
        _ _ _ hs hstep
    · rw [if_neg h2] at h
      cases h

/-- A successful wiring iteration preserves the invariant, the key set,
the id counter and the node list. -/
theorem inv_wiringStep {cds : CDs} {st st' : Core} {nc : NodeConfig}
    (h : wiringStep cds st nc = .ok st') (hi : Inv st) :
    Inv st' ∧ st'.nodes.map (·.1) = st.nodes.map (·.1) ∧
      st'.node_id = st.node_id ∧ st'.node_list = st.node_list := by
  simp only [wiringStep] at h
  by_cases hce : nc.connect.isEmpty = true
  · rw [if_pos hce] at h
    cases hsd : aget cds ((nc.name).getD "") with
    | none =>
      rw [hsd] at h
      cases h
      exact ⟨hi, rfl, rfl, rfl⟩
    | some sd =>
      rw [hsd] at h
      dsimp only at h
      by_cases hse : sd.isEmpty = true
      · rw [if_pos hse] at h
        cases h
        exact ⟨hi, rfl, rfl, rfl⟩
      · rw [if_neg hse] at h
        exact inv_addAllConnections h hi
  · rw [if_neg hce] at h
    exact inv_addAllConnections h hi

/-! ## Post-phase invariants and the master parse invariant -/

/-- Setting the node list does not disturb the invariant. -/
theorem inv_nodeListPhase {st : Core} (hi : Inv st) :
    Inv (nodeListPhase st) :=
  ⟨hi.1, hi.2.1, hi.2.2⟩

/-- Appending the user-image channel to every listed worker preserves
the invariant, the key set, the id counter and the node list. -/
theorem inv_imagePhase {st : Core} (hi : Inv st) :
    Inv (imagePhase st) ∧
      (imagePhase st).nodes.map (·.1) = st.nodes.map (·.1) ∧
      (imagePhase st).node_id = st.node_id ∧
      (imagePhase st).node_list = st.node_list := by
  have hnm : ∀ n : ZvmNode,
      ({ n with channels := n.channels ++ [imageChan] } :
        ZvmNode).name = n.name := fun n => rfl
  have hid : ∀ n : ZvmNode,
      ({ n with channels := n.channels ++ [imageChan] } :
        ZvmNode).id = n.id := fun n => rfl
  have hbd : ∀ n : ZvmNode,
      ({ n with channels := n.channels ++ [imageChan] } :
        ZvmNode).bind = n.bind := fun n => rfl
  have hcn : ∀ n : ZvmNode,
      ({ n with channels := n.channels ++ [imageChan] } :
        ZvmNode).connect = n.connect := fun n => rfl
  refine @foldl_inv _ _ _
    (fun s => Inv s ∧ s.nodes.map (·.1) = st.nodes.map (·.1) ∧
      s.node_id = st.node_id ∧ s.node_list = st.node_list)
    ?_ _ _ ⟨hi, rfl, rfl, rfl⟩
  intro s nm hs
  refine ⟨inv_aupd hnm hid hbd hcn hs.1, ?_, hs.2.2.1, hs.2.2.2⟩
  dsimp only
  exact (aupd_map_fst _ _ _).trans hs.2.1

/-- `resolve_path_info` rewrites only `path_info` and `replicate`. -/
theorem resolveNodeFn_parts (account : String) (rc : Int) (n : ZvmNode) :
    (resolveNodeFn account rc n).name = n.name ∧
    (resolveNodeFn account rc n).id = n.id ∧
    (resolveNodeFn account rc n).bind = n.bind ∧
    (resolveNodeFn account rc n).connect = n.connect := by
  simp only [resolveNodeFn]
  cases n.channels.head? with
  | none => exact ⟨rfl, rfl, rfl, rfl⟩
  | some tc =>
    dsimp only
    repeat' split
    all_goals exact ⟨rfl, rfl, rfl, rfl⟩

/-- A successful `resolve_path_info` preserves the invariant, the key
set, the id counter and the node list. -/
theorem inv_resolvePathInfo {st st' : Core} {account : String} {rc : Int}
    (h : resolvePathInfo st account rc = .ok st') (hi : Inv st) :
    Inv st' ∧ st'.nodes.map (·.1) = st.nodes.map (·.1) ∧
      st'.node_id = st.node_id ∧ st'.node_list = st.node_list := by
  simp only [resolvePathInfo] at h
  refine @foldE_ok_inv _ _ _
    (fun s => Inv s ∧ s.nodes.map (·.1) = st.nodes.map (·.1) ∧
      s.node_id = st.node_id ∧ s.node_list = st.node_list)
    ?_ _ _ _ ⟨hi, rfl, rfl, rfl⟩ h
  intro s nm s1 hs hstep
  cases hg : aget s.nodes nm with
  | none => rw [hg] at hstep; cases hstep
  | some n =>
    rw [hg] at hstep
    dsimp only at hstep
    cases hh : n.channels.head? with
    | none => rw [hh] at hstep; cases hstep
    | some c =>
      rw [hh] at hstep
      dsimp only at hstep
      cases hstep
      refine ⟨inv_aupd (fun m => (resolveNodeFn_parts account rc m).1)
        (fun m => (resolveNodeFn_parts account rc m).2.1)
        (fun m => (resolveNodeFn_parts account rc m).2.2.1)
        (fun m => (resolveNodeFn_parts account rc m).2.2.2) hs.1,
        ?_, hs.2.2.1, hs.2.2.2⟩
      dsimp only
      exact (aupd_map_fst _ _ _).trans hs.2.1

/-- Ordered insertion permutes consing. -/
theorem insertSorted_perm (x : String) (l : List String) :
    (insertSorted x l).Perm (x :: l) := by
  induction l with
  | nil => exact List.Perm.refl _
  | cons y ys ih =>
    rw [insertSorted]
    by_cases hc : decide (x ≤ y) = true
    · rw [if_pos hc]
    · rw [if_neg hc]
      exact (ih.cons y).trans (List.Perm.swap x y ys)

/-- The sorted node list is a permutation of the key list. -/
theorem sortStr_perm (l : List String) : (sortStr l).Perm l := by
  induction l with
  | nil => exact List.Perm.refl _
  | cons x xs ih =>
    rw [sortStr, List.foldr_cons]
    exact (insertSorted_perm x _).trans (ih.cons x)

/-- The reset planner state satisfies the invariant. -/
theorem inv_empty : Inv ⟨[], 1, []⟩ := by
  refine ⟨⟨rfl, rfl⟩, ⟨List.nodup_nil, ?_⟩, ?_, ?_⟩ <;>
    intro p hp <;> cases hp

/-- Master invariant: a state produced by a successful `parse` satisfies
the planner invariant, its node list enumerates the worker names, and
its total count is the recomputed replicate sum. -/
theorem parse_ok_inv {cfg : ParserCfg} {cb : Callbacks} {st0 : ParserState}
    {cc : List NodeConfig} {aui : Bool} {acct : Option String} {rc : Int}
    {st' : ParserState}
    (h : parse cfg cb st0 cc aui acct rc = .ok st') :
    Inv ⟨st'.nodes, st'.node_id, st'.node_list⟩ ∧
      st'.node_list.Perm (st'.nodes.map (·.1)) ∧
      st'.total_count = totalCount ⟨st'.nodes, st'.node_id, st'.node_list⟩ := by
  simp only [parse] at h
  cases h1 : foldE (processNode cfg cb) (⟨⟨[], 1, []⟩, []⟩ :
      Core × CDs) cc with
  | error e => rw [h1] at h; cases h
  | ok pr =>
    rw [h1] at h
    dsimp only at h
    have hinv1 : Inv pr.1 :=
      foldE_ok_inv (fun s a s1 hs hstep => inv_processNode s a s1 hs hstep)
        _ _ _ inv_empty h1
    cases h2 : foldE (wiringStep pr.2) pr.1 cc with
    | error e => rw [h2] at h; cases h
    | ok core2 =>
      rw [h2] at h
      dsimp only at h
      have hinv2 : Inv core2 :=
        @foldE_ok_inv _ _ (wiringStep pr.2) (fun s => Inv s)
          (fun s a s1 hs hstep => (inv_wiringStep hstep hs).1)
          _ _ _ hinv1 h2
      have hinv3 : Inv (nodeListPhase core2) := inv_nodeListPhase hinv2
      have hlist3 : (nodeListPhase core2).node_list =
          sortStr (core2.nodes.map (·.1)) := rfl
      have hkeys3 : (nodeListPhase core2).nodes.map (·.1) =
          core2.nodes.map (·.1) := rfl
      set core3 := nodeListPhase core2 with hcore3
      have hperm3 : core3.node_list.Perm (core3.nodes.map (·.1)) := by
        rw [hlist3, hkeys3]
        exact sortStr_perm _
      have himg := inv_imagePhase hinv3
      have hstep4 : Inv (if aui then imagePhase core3 else core3) ∧
          (if aui then imagePhase core3 else core3).node_list.Perm
            ((if aui then imagePhase core3 else core3).nodes.map (·.1)) := by
        cases aui with
        | true =>
          refine ⟨himg.1, ?_⟩
          rw [if_pos rfl] at *
          rw [himg.2.2.2, himg.2.1]
          exact hperm3
        | false => exact ⟨hinv3, hperm3⟩
      set core4 := if aui then imagePhase core3 else core3 with hcore4
      cases h5 : (if optFalsy acct then Except.ok core4
          else resolvePathInfo core4 (acct.getD "") rc) with
      | error e => rw [h5] at h; cases h
      | ok core5 =>
        rw [h5] at h
        dsimp only at h
        cases h
        have hstep5 : Inv core5 ∧
            core5.node_list.Perm (core5.nodes.map (·.1)) := by
          by_cases hacc : optFalsy acct = true
          · rw [if_pos hacc] at h5
            cases h5
            exact hstep4
          · rw [if_neg hacc] at h5
            obtain ⟨ha, hb, _, hd⟩ := inv_resolvePathInfo h5 hstep4.1
            refine ⟨ha, ?_⟩
            rw [hd, hb]
            exact hstep4.2
        exact ⟨hstep5.1, hstep5.2, rfl⟩

/-- C1: for every job that `parse` accepts, the workers' ids form the
dense sequence `1..N` in creation order, worker names are unique (each
dict key names its worker), the node list enumerates exactly the worker
names, and `total_count` is the recomputed sum of `replicate` over the
node list. -/
theorem parse_worker_identity {cfg : ParserCfg} {cb : Callbacks}
    {st0 : ParserState} {cc : List NodeConfig} {aui : Bool}
    {acct : Option String} {rc : Int} {st' : ParserState}
    (h : parse cfg cb st0 cc aui acct rc = .ok st') :
    st'.nodes.map (fun p => p.2.id) = List.range' 1 st'.nodes.length ∧
    (st'.nodes.map (·.1)).Nodup ∧
    (∀ p ∈ st'.nodes, p.2.name = p.1) ∧
    st'.node_list.Perm (st'.nodes.map (·.1)) ∧
    st'.total_count = totalCount ⟨st'.nodes, st'.node_id, st'.node_list⟩ := by
  obtain ⟨⟨hids, _⟩, ⟨hnodup, hnamed⟩, _⟩ := (parse_ok_inv h).1
  exact ⟨hids, hnodup, hnamed, (parse_ok_inv h).2.1, (parse_ok_inv h).2.2⟩

/-- C1 witness: the single-node demo job. -/
theorem parse_worker_identity_witness :
    psStdout.nodes.map (fun p => p.2.id) =
      List.range' 1 psStdout.nodes.length ∧
    (psStdout.nodes.map (·.1)).Nodup ∧
    (∀ p ∈ psStdout.nodes, p.2.name = p.1) ∧
    psStdout.node_list.Perm (psStdout.nodes.map (·.1)) ∧
    psStdout.total_count =
      totalCount ⟨psStdout.nodes, psStdout.node_id, psStdout.node_list⟩ := by
  have h : parse cfgDemo cbDemo {} jobStdout false none 1 = .ok psStdout :=
    rfl
  exact parse_worker_identity h

/-- C2: after a successful `parse`, every connect entry of a worker has
a matching bind entry on the named peer and vice versa, and no worker
names itself as its own peer. -/
theorem parse_connection_symmetry {cfg : ParserCfg} {cb : Callbacks}
    {st0 : ParserState} {cc : List NodeConfig} {aui : Bool}
    {acct : Option String} {rc : Int} {st' : ParserState}
    (h : parse cfg cb st0 cc aui acct rc = .ok st') :
    (∀ p ∈ st'.nodes, ∀ e ∈ p.2.connect, e.1 ≠ p.2.name ∧
      ∃ q ∈ st'.nodes, q.2.name = e.1 ∧ ∃ d, (p.2.name, d) ∈ q.2.bind) ∧
    (∀ p ∈ st'.nodes, ∀ e ∈ p.2.bind, e.1 ≠ p.2.name ∧
      ∃ q ∈ st'.nodes, q.2.name = e.1 ∧ ∃ d, (p.2.name, d) ∈ q.2.connect) := by
  obtain ⟨_, ⟨_, hnamed⟩, hsym⟩ := (parse_ok_inv h).1
  constructor
  · intro p hp e he
    obtain ⟨hne, q, hq, hq1, d, hd⟩ := hsym.1 p hp e he
    rw [hnamed p hp]
    exact ⟨hne, q, hq, (hnamed q hq).trans hq1, d, hd⟩
  · intro p hp e he
    obtain ⟨hne, q, hq, hq1, d, hd⟩ := hsym.2 p hp e he
    rw [hnamed p hp]
    exact ⟨hne, q, hq, (hnamed q hq).trans hq1, d, hd⟩

/-- C2 witness: the two-node declared-connect demo job. -/
theorem parse_connection_symmetry_witness :
    (∀ p ∈ psConnect.nodes, ∀ e ∈ p.2.connect, e.1 ≠ p.2.name ∧
      ∃ q ∈ psConnect.nodes, q.2.name = e.1 ∧
        ∃ d, (p.2.name, d) ∈ q.2.bind) ∧
    (∀ p ∈ psConnect.nodes, ∀ e ∈ p.2.bind, e.1 ≠ p.2.name ∧
      ∃ q ∈ psConnect.nodes, q.2.name = e.1 ∧
        ∃ d, (p.2.name, d) ∈ q.2.connect) := by
  have h : parse cfgDemo cbDemo {} jobConnect false none 1 = .ok psConnect :=
    rfl
  exact parse_connection_symmetry h

/-- C6 (amended): a node that names a connection target bound in the
dict under exactly the connecting node's own key is rejected by
`_add_connection` with `Cannot bind to itself`, and the single-node
self-connect demo job makes `parse` fail with that message.  The
replicated case is excluded: there the group loop silently skips the
self pair (see the counterexample). -/
theorem selfconnect_rejected {st : Core} {nodeName : String}
    {src : Option String} {n : ZvmNode}
    (h : aget st.nodes nodeName = some n) :
    addConnection st nodeName nodeName src none =
      .error (.config ("Cannot bind to itself: " ++ nodeName)) ∧
    parse cfgDemo cbDemo {} jobSelfExact false none 1 =
      .error (.config "Cannot bind to itself: a") := by
  refine ⟨?_, rfl⟩
  simp [addConnection, addConnectionResolved, h, optFalsy]

/-- C6 counterexample: a replicated node listing itself among its
connection targets is not rejected: the group loop skips the self pair,
`parse` succeeds, and sibling connection entries are produced. -/
theorem selfconnect_replicated_cex :
    jobSelfRepl.map (·.connect) = [["a"]] ∧
    (parse cfgDemo cbDemo {} jobSelfRepl false none 1).isOk = true ∧
    psSelfRepl.nodes.map (fun p => (p.1, p.2.connect.map (·.1))) =
      [("a-1", ["a-2"]), ("a-2", ["a-1"])] := ⟨rfl, rfl, rfl⟩

/-- C6 witness: the demo core rejects the exact-name self-connect. -/
theorem selfconnect_rejected_witness :
    addConnection stW "a" "a" none none =
      .error (.config ("Cannot bind to itself: " ++ "a")) ∧
    parse cfgDemo cbDemo {} jobSelfExact false none 1 =
      .error (.config "Cannot bind to itself: a") :=
  selfconnect_rejected rfl

/-! ## Claim C4: channel classification and per-worker channel order -/

/-- Membership-aware version of `foldE_ok_inv`. -/
theorem foldE_ok_inv_mem {σ α : Type} {f : σ → α → Except PErr σ}
    {P : σ → Prop} :
    ∀ (l : List α), (∀ s a s1, a ∈ l → P s → f s a = .ok s1 → P s1) →
    ∀ s s1, P s → foldE f s l = .ok s1 → P s1 := by
  intro l
  induction l with
  | nil =>
    intro _ s s1 hs h
    cases h
    exact hs
  | cons a l ih =>
    intro hf s s1 hs h
    rw [foldE] at h
    cases hfa : f s a with
    | ok t =>
      rw [hfa] at h
      exact ih (fun s2 b s3 hb => hf s2 b s3 (List.mem_cons_of_mem _ hb))
        t s1 (hf s a t (List.mem_cons_self _ _) hs hfa) h
    | error e => rw [hfa] at h; cases h

/-- The read class depends only on the access value. -/
theorem isReadCh_access {x y : ZvmChannel} (h : y.access = x.access)
    (hx : isReadCh x) : isReadCh y := by
  simp only [isReadCh] at hx ⊢
  rw [h]
  exact hx

/-- The append class depends only on the access value. -/
theorem isCdrCh_access {x y : ZvmChannel} (h : y.access = x.access)
    (hx : isCdrCh x) : isCdrCh y := by
  simp only [isCdrCh] at hx ⊢
  rw [h]
  exact hx

/-- The write class depends only on the access value. -/
theorem isWriteCh_access {x y : ZvmChannel} (h : y.access = x.access)
    (hx : isWriteCh x) : isWriteCh y := by
  simp only [isWriteCh] at hx ⊢
  rw [h]
  exact hx

theorem chansR_append {l : List ZvmChannel} {x : ZvmChannel}
    (hl : ChansR l) (hx : isReadCh x) : ChansR (l ++ [x]) := by
  intro y hy
  rcases List.mem_append.mp hy with hy | hy
  · exact hl y hy
  · simp only [List.mem_singleton] at hy
    subst hy
    exact hx

theorem chansR_RC {l : List ZvmChannel} (h : ChansR l) : ChansRC l :=
  ⟨l, [], (List.append_nil l).symm, h,
    fun x hx => absurd hx (List.not_mem_nil x)⟩

theorem chansRC_append {l : List ZvmChannel} {x : ZvmChannel}
    (hl : ChansRC l) (hx : isCdrCh x) : ChansRC (l ++ [x]) := by
  obtain ⟨a, b, hab, ha, hb⟩ := hl
  refine ⟨a, b ++ [x], by rw [hab, List.append_assoc], ha, ?_⟩
  intro y hy
  rcases List.mem_append.mp hy with hy | hy
  · exact hb y hy
  · simp only [List.mem_singleton] at hy
    subst hy
    exact hx

theorem chansRC_RCW {l : List ZvmChannel} (h : ChansRC l) : ChansRCW l := by
  obtain ⟨a, b, hab, ha, hb⟩ := h
  exact ⟨a, b, [], by rw [List.append_nil]; exact hab, ha, hb,
    fun x hx => absurd hx (List.not_mem_nil x)⟩

theorem chansRCW_append {l : List ZvmChannel} {x : ZvmChannel}
    (hl : ChansRCW l) (hx : isWriteCh x) : ChansRCW (l ++ [x]) := by
  obtain ⟨a, b, c, habc, ha, hb, hc⟩ := hl
  refine ⟨a, b, c ++ [x],
    by rw [habc, List.append_assoc, List.append_assoc], ha, hb, ?_⟩
  intro y hy
  rcases List.mem_append.mp hy with hy | hy
  · exact hc y hy
  · simp only [List.mem_singleton] at hy
    subst hy
    exact hx

theorem chansRCW_RCWO {l : List ZvmChannel} (h : ChansRCW l) :
    ChansRCWO l := by
  obtain ⟨a, b, c, habc, ha, hb, hc⟩ := h
  exact ⟨a, b, c, [], by rw [List.append_nil]; exact habc, ha, hb, hc,
    fun x hx => absurd hx (List.not_mem_nil x)⟩

theorem chansRCWO_append {l : List ZvmChannel} {x : ZvmChannel}
    (hl : ChansRCWO l) (hx : isOtherCh x) : ChansRCWO (l ++ [x]) := by
  obtain ⟨a, b, c, d, habcd, ha, hb, hc, hd⟩ := hl
  refine ⟨a, b, c, d ++ [x],
    by rw [habcd, List.append_assoc, List.append_assoc, List.append_assoc],
    ha, hb, hc, ?_⟩
  intro y hy
  rcases List.mem_append.mp hy with hy | hy
  · exact hd y hy
  · simp only [List.mem_singleton] at hy
    subst hy
    exact hx

theorem nodesCh_mono {P Q : List ZvmChannel → Prop} {st : Core}
    (hpq : ∀ l, P l → Q l) (h : NodesCh P st) : NodesCh Q st :=
  fun p hp => hpq _ (h p hp)

/-- Updates that keep the channel list keep any per-worker channel
property. -/
theorem nodesCh_aupd_keep {P : List ZvmChannel → Prop} {st : Core}
    {k : String} {f : ZvmNode → ZvmNode}
    (hf : ∀ n, (f n).channels = n.channels) (h : NodesCh P st) :
    NodesCh P { st with nodes := aupd st.nodes k f } := by
  intro p hp
  obtain ⟨q, hq, _, hv⟩ := mem_aupd hp
  rcases hv with hv | hv
  · rw [hv]
    exact h q hq
  · rw [hv, hf]
    exact h q hq

/-- Worker reuse or creation keeps a channel property holding on the
prototype's (empty) channel list. -/
theorem nodesCh_getNewNode {P : List ZvmChannel → Prop} {st : Core}
    {zn : ZvmNode} {i : Nat} (hz : P zn.channels) (h : NodesCh P st) :
    NodesCh P (getNewNode st zn i).1 := by
  simp only [getNewNode]
  cases hg : aget st.nodes (if i = 0 then zn.name else mkName zn.name i) with
  | some v => exact h
  | none =>
    intro p hp
    dsimp only at hp
    rcases List.mem_append.mp hp with hp | hp
    · exact h p hp
    · simp only [List.mem_singleton] at hp
      subst hp
      exact hz

/-- `_add_new_channel` appends one channel carrying the source channel's
access value. -/
theorem nodesCh_addNewChannel {P : List ZvmChannel → Prop} {zn : ZvmNode}
    {c : ZvmChannel} (hz : P zn.channels)
    (hP : ∀ l (x : ZvmChannel), P l → x.access = c.access → P (l ++ [x]))
    (st : Core) (i : Nat) (p : Option Location) (ct : Option String)
    (h : NodesCh P st) : NodesCh P (addNewChannel st zn c i p ct).1 := by
  simp only [addNewChannel]
  intro q hq
  dsimp only at hq
  obtain ⟨q0, hq0, _, hv⟩ := mem_aupd hq
  rcases hv with hv | hv
  · rw [hv]
    exact nodesCh_getNewNode hz h q0 hq0
  · rw [hv]
    exact hP _ _ (nodesCh_getNewNode hz h q0 hq0) rfl

/-- `add_channel` through `aupd` appends one channel carrying the source
channel's access value. -/
theorem nodesCh_aupd_addChan {P : List ZvmChannel → Prop} {st : Core}
    {k : String} {c : ZvmChannel} {pth : Option Location}
    {ctt : Option String}
    (hP : ∀ l (x : ZvmChannel), P l → x.access = c.access → P (l ++ [x]))
    (h : NodesCh P st) :
    NodesCh P { st with nodes := aupd st.nodes k (fun n => n.addChan c pth ctt) } := by
  intro q hq
  dsimp only at hq
  obtain ⟨q0, hq0, _, hv⟩ := mem_aupd hq
  rcases hv with hv | hv
  · rw [hv]
    exact h q0 hq0
  · rw [hv]
    exact hP _ _ (h q0 hq0) rfl

/-- One read-loop iteration only appends channels carrying the processed
channel's access value. -/
theorem nodesCh_readStep {P : List ZvmChannel → Prop} {cb : Callbacks}
    {zn : ZvmNode} {c : ZvmChannel} {rw rw' : RW} (hz : P zn.channels)
    (hP : ∀ l (x : ZvmChannel), P l → x.access = c.access → P (l ++ [x]))
    (h : readStep cb zn rw c = .ok rw') (hn : NodesCh P rw.st) :
    NodesCh P rw'.st := by
  simp only [readStep] at h
  cases hp : c.path with
  | none => rw [hp] at h; cases h
  | some p =>
    rw [hp] at h
    dsimp only at h
    by_cases hw : hasStar p.pathStr = true
    · rw [if_pos hw] at h
      cases hf : findObjects cb p with
      | error e => rw [hf] at h; cases h
      | ok objs =>
        rw [hf] at h
        dsimp only at h
        cases h
        refine @foldl_inv _ _ _ (fun s => NodesCh P s) ?_ _ _ hn
        intro s io hs
        dsimp only
        refine nodesCh_aupd_keep ?_ (nodesCh_addNewChannel hz hP _ _ _ _ hs)
        intro n
        rfl
    · rw [if_neg hw] at h
      cases h
      refine @foldl_inv _ _ _ (fun s => NodesCh P s) ?_ _ _ hn
      intro s i hs
      exact nodesCh_addNewChannel hz hP _ _ _ _ hs

/-- One write-loop iteration only appends channels carrying the
processed channel's access value. -/
theorem nodesCh_writeStep {P : List ZvmChannel → Prop} {zn : ZvmNode}
    {ncount : Nat} {rg : Bool} {st : Core} {c : ZvmChannel} {st' : Core}
    (hz : P zn.channels)
    (hP : ∀ l (x : ZvmChannel), P l → x.access = c.access → P (l ++ [x]))
    (h : writeStep zn ncount rg st c = .ok st') (hn : NodesCh P st) :
    NodesCh P st' := by
  simp only [writeStep] at h
  cases hp : c.path with
  | some p =>
    rw [hp] at h
    dsimp only at h
    by_cases hw : hasStar p.url = true
    · rw [if_pos hw] at h
      cases hrg : rg with
      | true =>
        rw [hrg] at h
        rw [if_pos rfl] at h
        refine foldE_ok_inv_mem _ ?_ _ _ hn h
        intro s i s1 _ hs hstep
        cases hg : aget s.nodes (mkName zn.name i) with
        | none => rw [hg] at hstep; cases hstep
        | some nd =>
          rw [hg] at hstep
          dsimp only at hstep
          cases hex : extractStoredWildcards p.url nd.wildcards with
          | error e => rw [hex] at hstep; cases hstep
          | ok new_url =>
            rw [hex] at hstep
            dsimp only at hstep
            cases hstep
            exact nodesCh_aupd_addChan hP hs
      | false =>
        rw [hrg] at h
        rw [if_neg Bool.false_ne_true] at h
        cases h
        refine @foldl_inv _ _ _ (fun s => NodesCh P s) ?_ _ _ hn
        intro s i hs
        dsimp only
        refine nodesCh_aupd_keep ?_ (nodesCh_addNewChannel hz hP _ _ _ _ hs)
        intro n
        rfl
    · rw [if_neg hw] at h
      by_cases hcn : ncount > 1
      · rw [if_pos hcn] at h
        cases h
      · rw [if_neg hcn] at h
        cases h
        exact nodesCh_addNewChannel hz hP _ _ _ _ hn
  | none =>
    rw [hp] at h
    dsimp only at h
    by_cases hg : (!(strContains c.device "stdout") &&
        !(strContains c.device "stderr")) = true
    · rw [if_pos hg] at h
      cases h
    · rw [if_neg hg] at h
      cases h
      refine @foldl_inv _ _ _ (fun s => NodesCh P s) ?_ _ _ hn
      intro s i hs
      exact nodesCh_addNewChannel hz hP _ _ _ _ hs

/-- One other-loop iteration appends other-class channels: sysimage
devices are upgraded to `RANDOM | READABLE`, anything else arriving here
has all three class bits clear. -/
theorem nodesCh_otherStep {cfg : ParserCfg} {zn : ZvmNode} {ncount : Nat}
    {st : Core} {c : ZvmChannel} {st' : Core}
    (hz : ChansRCWO zn.channels)
    (hc : (accLand c.access ACCESS_READABLE = 0 ∧
        accLand c.access ACCESS_CDR = 0 ∧
        accLand c.access ACCESS_WRITABLE = 0) ∨
      isSysimage cfg c.device = true)
    (h : otherStep cfg zn ncount st c = .ok st')
    (hn : NodesCh ChansRCWO st) : NodesCh ChansRCWO st' := by
  simp only [otherStep] at h
  by_cases hs : isSysimage cfg c.device = true
  · simp only [hs, eq_self_iff_true, if_true, Bool.not_true, Bool.false_and,
      Bool.false_eq_true, if_false] at h
    cases h
    refine @foldl_inv _ _ _ (fun s => NodesCh ChansRCWO s) ?_ _ _ hn
    intro s i hsn
    refine nodesCh_addNewChannel hz ?_ _ _ _ _ hsn
    intro l x hl hx
    exact chansRCWO_append hl (Or.inr hx)
  · have hsf : isSysimage cfg c.device = false :=
      Bool.eq_false_iff.mpr (fun hh => hs (by rw [hh]))
    simp only [hsf, Bool.false_eq_true, if_false, Bool.not_false,
      Bool.true_and] at h
    by_cases hpn : c.path = none
    · rw [if_pos (by simp [hpn])] at h
      cases h
    · rw [if_neg (by simp [hpn])] at h
      cases h
      have hbits : accLand c.access ACCESS_READABLE = 0 ∧
          accLand c.access ACCESS_CDR = 0 ∧
          accLand c.access ACCESS_WRITABLE = 0 := by
        rcases hc with hb | hsy
        · exact hb
        · exact absurd hsy hs
      refine @foldl_inv _ _ _ (fun s => NodesCh ChansRCWO s) ?_ _ _ hn
      intro s i hsn
      refine nodesCh_addNewChannel hz ?_ _ _ _ _ hsn
      intro l x hl hx
      refine chansRCWO_append hl (Or.inl ?_)
      rw [show x.access = c.access from hx]
      exact hbits

/-- Class facts carried by the partition accumulator: the read list is
pure reads followed by appends, the write list is writes, the other list
holds channels with all class bits clear or sysimage devices. -/
def PartsOk (cfg : ParserCfg) (acc : Partitioned) : Prop :=
  (∃ A B, acc.read_list = A ++ B ∧ (∀ x ∈ A, isReadCh x) ∧
    (∀ x ∈ B, isCdrCh x)) ∧
  (∀ x ∈ acc.write_list, isWriteCh x) ∧
  (∀ x ∈ acc.other_list,
    (accLand x.access ACCESS_READABLE = 0 ∧ accLand x.access ACCESS_CDR = 0 ∧
      accLand x.access ACCESS_WRITABLE = 0) ∨ isSysimage cfg x.device = true)

/-- One classification iteration preserves the partition class facts:
reads are prepended to the read block, appends appended after it, writes
and others appended to their lists. -/
theorem classify_step_parts {cfg : ParserCfg} {zn : ZvmNode}
    {acc acc1 : Partitioned} {f : FileConfig}
    (hc : classifyStep cfg zn acc f = .ok acc1) (hacc : PartsOk cfg acc) :
    PartsOk cfg acc1 := by
  obtain ⟨hr, hw, ho⟩ := hacc
  simp only [classifyStep] at hc
  cases hcc : createChannel cfg zn.name f with
  | error e => rw [hcc] at hc; cases hc
  | ok c =>
    rw [hcc] at hc
    dsimp only at hc
    by_cases hzv : isZvmLoc c.path = true
    · rw [if_pos hzv] at hc
      cases hc
      exact ⟨hr, hw, ho⟩
    · rw [if_neg hzv] at hc
      by_cases ha : c.access = none
      · rw [if_pos ha] at hc
        by_cases hsy : isSysimage cfg c.device = true
        · rw [if_pos hsy] at hc
          cases hc
          refine ⟨hr, hw, ?_⟩
          intro x hx
          rcases List.mem_append.mp hx with hx | hx
          · exact ho x hx
          · simp only [List.mem_singleton] at hx
            subst hx
            exact Or.inr hsy
        · rw [if_neg hsy] at hc
          cases hc
      · rw [if_neg ha] at hc
        by_cases hrd : accLand c.access ACCESS_READABLE ≠ 0
        · rw [if_pos hrd] at hc
          cases hc
          obtain ⟨A, B, hAB, hA, hB⟩ := hr
          refine ⟨⟨c :: A, B, ?_, ?_, hB⟩, hw, ho⟩
          · show c :: acc.read_list = c :: A ++ B
            rw [hAB]
            rfl
          · intro x hx
            rcases List.mem_cons.mp hx with hx | hx
            · subst hx
              exact hrd
            · exact hA x hx
        · rw [if_neg hrd] at hc
          by_cases hcd : accLand c.access ACCESS_CDR ≠ 0
          · rw [if_pos hcd] at hc
            cases hc
            obtain ⟨A, B, hAB, hA, hB⟩ := hr
            refine ⟨⟨A, B ++ [c], ?_, hA, ?_⟩, hw, ho⟩
            · show acc.read_list ++ [c] = A ++ (B ++ [c])
              rw [hAB, List.append_assoc]
            · intro x hx
              rcases List.mem_append.mp hx with hx | hx
              · exact hB x hx
              · simp only [List.mem_singleton] at hx
                subst hx
                exact ⟨not_not.mp hrd, hcd⟩
          · rw [if_neg hcd] at hc
            by_cases hwr : accLand c.access ACCESS_WRITABLE ≠ 0
            · rw [if_pos hwr] at hc
              cases hc
              refine ⟨hr, ?_, ho⟩
              intro x hx
              rcases List.mem_append.mp hx with hx | hx
              · exact hw x hx
              · simp only [List.mem_singleton] at hx
                subst hx
                exact ⟨not_not.mp hrd, not_not.mp hcd, hwr⟩
            · rw [if_neg hwr] at hc
              cases hc
              refine ⟨hr, hw, ?_⟩
              intro x hx
              rcases List.mem_append.mp hx with hx | hx
              · exact ho x hx
              · simp only [List.mem_singleton] at hx
                subst hx
                exact Or.inl ⟨not_not.mp hrd, not_not.mp hcd, not_not.mp hwr⟩

/-- The classification fold preserves the partition class facts. -/
theorem classify_parts {cfg : ParserCfg} {zn : ZvmNode}
    {fl : List FileConfig} {acc part : Partitioned}
    (h : foldE (classifyStep cfg zn) acc fl = .ok part)
    (hacc : PartsOk cfg acc) : PartsOk cfg part :=
  foldE_ok_inv (fun _ _ _ hs hstep => classify_step_parts hstep hs)
    _ _ _ hacc h

/-- The empty partition satisfies the class facts. -/
theorem partsOk_empty (cfg : ParserCfg) (cds : CDs) :
    PartsOk cfg { cds := cds } :=
  ⟨⟨[], [], rfl, fun x hx => absurd hx (List.not_mem_nil x),
    fun x hx => absurd hx (List.not_mem_nil x)⟩,
   fun x hx => absurd hx (List.not_mem_nil x),
   fun x hx => absurd hx (List.not_mem_nil x)⟩

/-- C4 (amended): for every input node processed into a fresh planner
state, every produced worker's channel list is four class blocks in
order - readable channels first, then append (CDR) channels, then
writable channels, then other channels.  Within the readable block the
channels are NOT in the job's listed order: the classification loop
prepends each pure read (`insert(0, ...)`), so pure reads appear in
reverse job order (see the counterexample). -/
theorem processNode_channel_order {cfg : ParserCfg} {cb : Callbacks}
    {acc : Core × CDs} {nc : NodeConfig} {out : Core × CDs}
    (ha : acc.1.nodes = []) (h : processNode cfg cb acc nc = .ok out) :
    ∀ p ∈ out.1.nodes, ∃ a b c d,
      p.2.channels = a ++ b ++ c ++ d ∧
      (∀ x ∈ a, isReadCh x) ∧ (∀ x ∈ b, isCdrCh x) ∧
      (∀ x ∈ c, isWriteCh x) ∧ (∀ x ∈ d, isOtherCh x) := by
  simp only [processNode] at h
  cases hzn : createNode nc with
  | error e => rw [hzn] at h; cases h
  | ok zn =>
    rw [hzn] at h
    dsimp only at h
    obtain ⟨_, _, hzch⟩ := createNode_shape hzn
    have hzR : ChansR zn.channels := by
      rw [hzch]
      intro y hy
      cases hy
    have hzRCWO : ChansRCWO zn.channels :=
      chansRCW_RCWO (chansRC_RCW (chansR_RC hzR))
    by_cases hcnt : (nc.count.getD 1 : Int) > 0
    · rw [if_pos hcnt] at h
      by_cases hfl : nc.file_list.isEmpty
      · rw [if_pos hfl] at h
        cases h
        intro p hp
        rw [ha] at hp
        cases hp
      · rw [if_neg hfl] at h
        cases hpart : foldE (classifyStep cfg zn)
            { cds := acc.2, read_list := [], write_list := [],
              other_list := [] } nc.file_list with
        | error e => rw [hpart] at h; cases h
        | ok part =>
          rw [hpart] at h
          dsimp only at h
          cases hrw : foldE (readStep cb zn)
              { st := acc.1, node_count := (nc.count.getD 1).toNat,
                read_group := false } part.read_list with
          | error e => rw [hrw] at h; cases h
          | ok rw1 =>
            rw [hrw] at h
            dsimp only at h
            cases hw : foldE (writeStep zn rw1.node_count rw1.read_group)
                rw1.st part.write_list with
            | error e => rw [hw] at h; cases h
            | ok st2 =>
              rw [hw] at h
              dsimp only at h
              cases ho : foldE (otherStep cfg zn rw1.node_count) st2
                  part.other_list with
              | error e => rw [ho] at h; cases h
              | ok st3 =>
                rw [ho] at h
                dsimp only at h
                cases h
                obtain ⟨⟨A, B, hAB, hA2, hB2⟩, hwl, hol⟩ :=
                  classify_parts hpart (partsOk_empty cfg acc.2)
                rw [hAB] at hrw
                obtain ⟨rwm, hfa, hfb⟩ := foldE_append A B _ _ hrw
                have hbase : NodesCh ChansR
                    (⟨acc.1, (nc.count.getD 1).toNat, false⟩ : RW).st := by
                  intro p hp
                  rw [ha] at hp
                  cases hp
                have hra : NodesCh ChansR rwm.st := by
                  refine @foldE_ok_inv_mem RW ZvmChannel _
                    (fun a => NodesCh ChansR a.st) A ?_ _ _ hbase hfa
                  intro a x a1 hx hs hstep
                  refine nodesCh_readStep hzR ?_ hstep hs
                  intro l y hl hy
                  exact chansR_append hl (isReadCh_access hy (hA2 x hx))
                have hrb : NodesCh ChansRC rw1.st := by
                  refine @foldE_ok_inv_mem RW ZvmChannel _
                    (fun a => NodesCh ChansRC a.st) B ?_ _ _
                    (nodesCh_mono (fun l => chansR_RC) hra) hfb
                  intro a x a1 hx hs hstep
                  refine nodesCh_readStep (chansR_RC hzR) ?_ hstep hs
                  intro l y hl hy
                  exact chansRC_append hl (isCdrCh_access hy (hB2 x hx))
                have hwc : NodesCh ChansRCW st2 := by
                  refine @foldE_ok_inv_mem Core ZvmChannel _
                    (fun s => NodesCh ChansRCW s) part.write_list ?_ _ _
                    (nodesCh_mono (fun l => chansRC_RCW) hrb) hw
                  intro s x s1 hx hs hstep
                  refine nodesCh_writeStep (chansRC_RCW (chansR_RC hzR)) ?_
                    hstep hs
                  intro l y hl hy
                  exact chansRCW_append hl (isWriteCh_access hy (hwl x hx))
                have hoc : NodesCh ChansRCWO st3 := by
                  refine @foldE_ok_inv_mem Core ZvmChannel _
                    (fun s => NodesCh ChansRCWO s) part.other_list ?_ _ _
                    (nodesCh_mono (fun l => chansRCW_RCWO) hwc) ho
                  intro s x s1 hx hs hstep
                  exact nodesCh_otherStep hzRCWO (hol x hx) hstep hs
                exact fun p hp => hoc p hp
    · rw [if_neg hcnt] at h
      cases h

/-- C4 counterexample: the two-read job lists `stdin` before `input`,
but the produced worker's channel list starts `input`, `stdin` - the
pure reads are in reverse job order, refuting the insertion-order
clause. -/
theorem channel_order_cex :
    jobTwoReads.map (fun nc => nc.file_list.map (·.device)) =
      [[some "stdin", some "input", some "stdout"]] ∧
    psTwoReads.nodes.map (fun p => (p.1, p.2.channels.map (·.device))) =
      [("a", ["input", "stdin", "stdout"])] := ⟨rfl, rfl⟩

/-- C4 witness: the worker produced for the two-read demo node processed
from the fresh planner state. -/
theorem processNode_channel_order_witness :
    ∃ a b c d,
      ((pnTwoReads.1.nodes.head?.getD
          ("", { id := 0, name := "", exe := .raw "" })).2.channels =
        a ++ b ++ c ++ d) ∧
      (∀ x ∈ a, isReadCh x) ∧ (∀ x ∈ b, isCdrCh x) ∧
      (∀ x ∈ c, isWriteCh x) ∧ (∀ x ∈ d, isOtherCh x) := by
  have h : processNode cfgDemo cbDemo (⟨⟨[], 1, []⟩, []⟩) ncTwoReads =
      .ok pnTwoReads := rfl
  exact processNode_channel_order rfl h _ (by decide)

end Zerocloud
